import Mathlib

/-!
Race-reproduction harnesses: region, detector and driver loop.

A shallow embedding of the C reproducers `io_uring_swap.c`,
`page_count_do_wp_page.c`, `page_count_do_wp_page-swap.c`, `vfio_swap.c` and
`vmsplice-oom.c`.

* The buffer `mem` is a map from byte offsets (relative to the pointer returned
  by `posix_memalign`) to bytes.  Page 0 is Working, page 1 is Reference
  (`mem+PAGE_SIZE`), page 2 is Poison (`mem+PAGE_SIZE*2`).
* `PAGE_SIZE` and `HARDBLKSIZE` are `#define`s in the sources; they are the two
  fields of `Config`, and `source_config` holds the values of the sources.
* What the kernel does (the bytes and return value of a read, the results of
  the liburing calls, of the VFIO ioctls, the parsed `/proc/meminfo`, the address
  returned by `mmap`) is an explicit input of each step.
* Arithmetic on `unsigned long` is arithmetic on `Nat` modulo `2^64`.
-/

namespace Harness

/-- A byte of the buffer (`char`). -/
abbrev Byte := Fin 256

/-- The buffer, addressed by byte offset from `mem`. -/
abbrev Mem := Nat → Byte

/-- The two `#define`d sizes of the reproducers. -/
structure Config where
  PAGE_SIZE : Nat
  HARDBLKSIZE : Nat
deriving DecidableEq, Repr

/-- The sizes as the sources define them: `PAGE_SIZE (1UL<<12)`, `HARDBLKSIZE 512`. -/
def source_config : Config := ⟨4096, 512⟩

/-- The three reproducers that share the classify-and-toggle driver loop. -/
inductive Variant
  | io_uring_swap
  | page_count_do_wp_page
  | page_count_do_wp_page_swap
deriving DecidableEq, Repr

/-- The store `mem[a] = b`. -/
def store (m : Mem) (a : Nat) (b : Byte) : Mem :=
  fun i => if i = a then b else m i

/-- The call `memset(mem + s, ch, n)`: the value is converted to `unsigned char`. -/
def memset (m : Mem) (s : Nat) (ch : Nat) (n : Nat) : Mem :=
  fun i => if s ≤ i ∧ i < s + n then Fin.ofNat ch else m i

/-- The call `bzero(mem + s, n)`. -/
def bzero (m : Mem) (s : Nat) (n : Nat) : Mem :=
  fun i => if s ≤ i ∧ i < s + n then 0 else m i

/-- The call `memcmp(mem + s1, mem + s2, n)`: zero when the two ranges agree, otherwise the
difference of the first pair of differing bytes, taken as `unsigned char`. -/
def memcmp (m : Mem) (s1 s2 : Nat) : Nat → Int
  | 0 => 0
  | n + 1 =>
    if m s1 = m s2 then memcmp m (s1 + 1) (s2 + 1) n
    else ((m s1).val : Int) - ((m s2).val : Int)

/-- The initialisation sequence of `main`:
`bzero(mem, PAGE_SIZE * 3); memset(mem + PAGE_SIZE * 2, 0xff, HARDBLKSIZE);`. -/
def init_region (c : Config) (prior : Mem) : Mem :=
  memset (bzero prior 0 (c.PAGE_SIZE * 3)) (c.PAGE_SIZE * 2) 0xff c.HARDBLKSIZE

/-! ## The classify-and-toggle driver loop -/

/-- What `main` prints in the driver loop (the text is in the comment of each case). -/
inductive Msg
  /-- Text `io_uring_read_fixed() failed`, or `perror("read")`. -/
  | read_failed
  /-- Text `unexpected memory corruption detected`. -/
  | unexpected_corruption
  /-- Text `memory corruption detected, dumping page`. -/
  | corruption_dumping_page
  /-- The bytes `mem[0] .. mem[end-1]` printed by the `for` loop, then a newline. -/
  | dump (bytes : List Byte)
  /-- Text `memory corruption detected`. -/
  | corruption_detected
deriving DecidableEq, Repr

/-- What one read hands back: the value `main` compares with `HARDBLKSIZE`, how many
bytes the kernel stored at `mem`, and those bytes. -/
structure ReadResult where
  ret : Int
  got : Nat
  data : Nat → Byte

/-- The buffer after a read into `mem` of at most `HARDBLKSIZE` bytes. -/
def after_read (c : Config) (m : Mem) (rd : ReadResult) : Mem :=
  fun i => if i < min rd.got c.HARDBLKSIZE then rd.data i else m i

/-- State of `while (1)` in `main`: the buffer and `skip_memset`. -/
structure Loop where
  mem : Mem
  skip_memset : Bool

/-- How one pass through the body of `while (1)` ends. -/
inductive Outcome
  /-- Control is back at the top of the loop. -/
  | next (s : Loop) (out : List Msg)
  /-- The process ended through `exit`, with this wait status. -/
  | exit (status : Nat) (out : List Msg)

/-- The loop state an outcome carries on with, if the process is still running. -/
def Outcome.state : Outcome → Option Loop
  | .next s _ => some s
  | .exit _ _ => none

/-- What was printed. -/
def Outcome.out : Outcome → List Msg
  | .next _ out => out
  | .exit _ out => out

/-- The wait status, if the process ended. -/
def Outcome.status : Outcome → Option Nat
  | .next _ _ => none
  | .exit status _ => some status

/-- The status a parent sees for `exit(code)`: the low eight bits. -/
def exit_status (code : Int) : Nat := (code % 256).toNat

/-- Conversion to `int` of an unsigned value (two's complement, 32 bits). -/
def to_int32 (n : Nat) : Int :=
  if n % 2 ^ 32 < 2 ^ 31 then ((n % 2 ^ 32 : Nat) : Int) else ((n % 2 ^ 32 : Nat) : Int) - 2 ^ 32

/-- Conversion of an `int` to `unsigned long`. -/
def to_u64 (i : Int) : Nat := (i % 2 ^ 64).toNat

/-- The argument of `exit` after a bad read: `exit(-1)` in io_uring_swap,
`exit(1)` in the two page_count reproducers. -/
def read_failure_code : Variant → Int
  | .io_uring_swap => -1
  | .page_count_do_wp_page => 1
  | .page_count_do_wp_page_swap => 1

/-- The block `if (memcmp(mem, mem+PAGE_SIZE, HARDBLKSIZE)) { ... }` of `main`:
what it prints, and the argument of `exit` when it ends the process. -/
def detect (v : Variant) (c : Config) (m : Mem) (skip_memset : Bool) :
    List Msg × Option Int :=
  if memcmp m 0 c.PAGE_SIZE c.HARDBLKSIZE ≠ 0 then
    if memcmp m 0 (c.PAGE_SIZE * 2) c.PAGE_SIZE ≠ 0 then
      let header := if skip_memset then Msg.unexpected_corruption
        else Msg.corruption_dumping_page
      let end0 : Int := to_int32 c.PAGE_SIZE
      let end1 : Int :=
        if memcmp m c.HARDBLKSIZE c.PAGE_SIZE (c.PAGE_SIZE - c.HARDBLKSIZE) = 0
        then (c.HARDBLKSIZE : Int) else end0
      ([header, Msg.dump ((List.range end1.toNat).map m)], none)
    else
      match v with
      | .io_uring_swap => ([Msg.corruption_detected], some (-1))
      | .page_count_do_wp_page => ([Msg.corruption_detected], none)
      | .page_count_do_wp_page_swap => ([Msg.corruption_detected], none)
  else ([], none)

/-- The tail of the loop body:
`skip_memset = !skip_memset; if (!skip_memset) memset(mem, 0xff, HARDBLKSIZE);`. -/
def toggle (c : Config) (m : Mem) (skip_memset : Bool) : Loop :=
  let flipped := !skip_memset
  ⟨if !flipped then memset m 0 0xff c.HARDBLKSIZE else m, flipped⟩

/-- One pass through the body of `while (1)`, given what the read of this pass did. -/
def cycle (v : Variant) (c : Config) (s : Loop) (rd : ReadResult) : Outcome :=
  let mem := after_read c s.mem rd
  if rd.ret ≠ (c.HARDBLKSIZE : Int) then
    Outcome.exit (exit_status (read_failure_code v)) [Msg.read_failed]
  else
    match detect v c mem s.skip_memset with
    | (out, some code) => Outcome.exit (exit_status code) out
    | (out, none) => Outcome.next (toggle c mem s.skip_memset) out

/-- The loop over a finite list of reads; it stops at the first `exit`. -/
def run (v : Variant) (c : Config) : Loop → List ReadResult → Outcome
  | s, [] => Outcome.next s []
  | s, rd :: rds =>
    match cycle v c s rd with
    | Outcome.exit status out => Outcome.exit status out
    | Outcome.next s1 out =>
      match run v c s1 rds with
      | Outcome.exit status out1 => Outcome.exit status (out ++ out1)
      | Outcome.next s2 out1 => Outcome.next s2 (out ++ out1)

/-- One iteration of the `writer` thread: `x = mem[PAGE_SIZE-1]; mem[PAGE_SIZE-1] = x;`
in io_uring_swap and page_count_do_wp_page-swap, `mem[PAGE_SIZE-1] = 0;` in
page_count_do_wp_page. -/
def writer (v : Variant) (c : Config) (m : Mem) : Mem :=
  match v with
  | .io_uring_swap => store m (c.PAGE_SIZE - 1) (m (c.PAGE_SIZE - 1))
  | .page_count_do_wp_page => store m (c.PAGE_SIZE - 1) 0
  | .page_count_do_wp_page_swap => store m (c.PAGE_SIZE - 1) (m (c.PAGE_SIZE - 1))

/-- The operations of the harness that can touch or inspect the buffer once it is
set up. -/
inductive HarnessOp
  /-- One iteration of the writer thread. -/
  | writer (v : Variant)
  /-- A read into offset 0, storing the first bytes of `rd.data` (`HARDBLKSIZE` of them
  when `rd.got` is `HARDBLKSIZE`). -/
  | read (rd : ReadResult)
  /-- The classification block, run with this value of `skip_memset`. -/
  | classify (v : Variant) (skip_memset : Bool)
  /-- The write `memset(mem, 0xff, HARDBLKSIZE)`. -/
  | compensate

/-- Effect of one operation on the buffer. -/
def HarnessOp.apply (c : Config) : HarnessOp → Mem → Mem
  | .writer v, m => Harness.writer v c m
  | .read rd, m => after_read c m rd
  | .classify _ _, m => m
  | .compensate, m => memset m 0 0xff c.HARDBLKSIZE

/-- Effect of a sequence of operations, first to last. -/
def apply_ops (c : Config) (ops : List HarnessOp) (m : Mem) : Mem :=
  ops.foldl (fun acc op => op.apply c acc) m

/-- The file after `write(fd, mem, PAGE_SIZE)` on the freshly truncated file. -/
def file_of (c : Config) (m : Mem) : List Byte :=
  (List.range c.PAGE_SIZE).map m

/-- The call `pread(fd, mem, HARDBLKSIZE, 0)` on a file with this content. -/
def pread (c : Config) (file : List Byte) : ReadResult :=
  ⟨(min c.HARDBLKSIZE file.length : Nat), min c.HARDBLKSIZE file.length,
    fun i => file.getD i 0⟩

/-- Where `main` stands when it enters `while (1)`. -/
structure Started where
  loop : Loop
  file : List Byte

/-- The start of `main`: the buffer is set up, its first page is written to the
file, and `skip_memset` is `true`. -/
def main_start (c : Config) (prior : Mem) : Started :=
  let mem := init_region c prior
  ⟨⟨mem, true⟩, file_of c mem⟩

/-! ## `io_uring_read_fixed` -/

/-- What the liburing calls of one `io_uring_read_fixed` return. -/
structure UringOutcome where
  register_buffers : Int
  /-- Whether `io_uring_get_sqe` returned an entry (not `NULL`). -/
  get_sqe : Bool
  submit : Int
  wait_cqe : Int
  /-- The field `cqe->res`. -/
  cqe_res : Int
  unregister_buffers : Int
deriving DecidableEq, Repr

/-- The liburing calls, in the order `io_uring_read_fixed` can make them. -/
inductive UringCall
  | register_buffers
  | get_sqe
  | prep_read_fixed
  | submit
  | wait_cqe
  | cqe_seen
  | unregister_buffers
deriving DecidableEq, Repr

/-- Result of `io_uring_read_fixed`: the returned `int`, the calls made in order,
and whether the completion was consumed. -/
structure UringRun where
  ret : Int
  calls : List UringCall
  completed : Bool
deriving DecidableEq, Repr

/-- The body of `io_uring_read_fixed`, as a function of what its liburing calls
return.  The attempt counter, the `usleep` and the texts sent to `stderr` do not
bear on the returned value and are left out. -/
def io_uring_read_fixed (o : UringOutcome) : UringRun :=
  let ret := o.register_buffers
  if ret ≠ 0 then ⟨ret, [.register_buffers], false⟩
  else if !o.get_sqe then ⟨ret, [.register_buffers, .get_sqe], false⟩
  else
    let ret := o.submit
    if ret < 0 then
      ⟨ret, [.register_buffers, .get_sqe, .prep_read_fixed, .submit], false⟩
    else
      let ret := o.wait_cqe
      if ret < 0 then
        ⟨ret, [.register_buffers, .get_sqe, .prep_read_fixed, .submit, .wait_cqe], false⟩
      else
        let res := o.cqe_res
        let ret := o.unregister_buffers
        if ret ≠ 0 then
          ⟨ret, [.register_buffers, .get_sqe, .prep_read_fixed, .submit, .wait_cqe,
            .cqe_seen, .unregister_buffers], true⟩
        else
          ⟨res, [.register_buffers, .get_sqe, .prep_read_fixed, .submit, .wait_cqe,
            .cqe_seen, .unregister_buffers], true⟩

/-- What `main` gets from `io_uring_read_fixed(&ring, fd, mem, HARDBLKSIZE)`: bytes
reach `mem` only when the completion was consumed, and then `cqe->res` of them. -/
def uring_result (o : UringOutcome) (data : Nat → Byte) : ReadResult :=
  let r := io_uring_read_fixed o
  ⟨r.ret, if r.completed then o.cqe_res.toNat else 0, data⟩

/-- A step of `io_uring_read_fixed` fails: a negative code, or no submission entry. -/
def UringOutcome.step_fails (o : UringOutcome) : Prop :=
  o.register_buffers < 0 ∨ o.get_sqe = false ∨ o.submit < 0 ∨ o.wait_cqe < 0 ∨
    o.unregister_buffers < 0

instance (o : UringOutcome) : Decidable o.step_fails := by
  unfold UringOutcome.step_fails
  infer_instance

/-- The read of a pass in which nothing goes wrong: `pread` of the file in the two
page_count reproducers; in io_uring_swap an `io_uring_read_fixed` whose calls all
succeed and whose completion carries the count and the bytes of the same `pread`. -/
def quiet_read (v : Variant) (c : Config) (file : List Byte) : ReadResult :=
  match v with
  | .io_uring_swap =>
    uring_result ⟨0, true, 1, 0, (pread c file).ret, 0⟩ (pread c file).data
  | .page_count_do_wp_page => pread c file
  | .page_count_do_wp_page_swap => pread c file

/-! ## The mapping loop of `vfio_swap` -/

/-- What `main` of vfio_swap prints in its loop. -/
inductive VfioMsg
  /-- The progress dot, every 1000 passes. -/
  | dot
  /-- Text `Failed to DMA map: %m`, printed by `dma_map`. -/
  | failed_to_dma_map
  /-- Text `dma_map() failed`, printed by `main`. -/
  | dma_map_failed
  /-- Text `Failed to DMA unmap: %m`, printed by `dma_unmap`. -/
  | failed_to_dma_unmap
  /-- Text `dma_unmap() failed`, printed by `main`. -/
  | dma_unmap_failed
deriving DecidableEq, Repr

/-- What `ioctl(container, VFIO_IOMMU_UNMAP_DMA, &dma_unmap)` does: its return
value, and the value it stores in the `size` field when it stores one. -/
structure UnmapIoctl where
  ret : Int
  size_written : Option Nat
deriving DecidableEq, Repr

/-- The function `dma_map`: it returns the return value of the ioctl. -/
def dma_map (ioctl_ret : Int) : Int × List VfioMsg :=
  (ioctl_ret, if ioctl_ret ≠ 0 then [VfioMsg.failed_to_dma_map] else [])

/-- The function `dma_unmap`, called with `size`: it returns the `size` field of
the request as the ioctl left it, converted to `int`. -/
def dma_unmap (size : Int) (u : UnmapIoctl) : Int × List VfioMsg :=
  let field : Nat := u.size_written.getD (to_u64 size)
  (to_int32 field, if u.ret ≠ 0 then [VfioMsg.failed_to_dma_unmap] else [])

/-- State of the mapping loop: the buffer and the static `count`. -/
structure VfioLoop where
  mem : Mem
  count : Nat

/-- How one pass through the mapping loop ends. -/
inductive VfioOutcome
  | next (s : VfioLoop) (out : List VfioMsg)
  | exit (status : Nat) (out : List VfioMsg)

/-- The wait status, if the process ended. -/
def VfioOutcome.status : VfioOutcome → Option Nat
  | .next _ _ => none
  | .exit status _ => some status

/-- What was printed. -/
def VfioOutcome.out : VfioOutcome → List VfioMsg
  | .next _ out => out
  | .exit _ out => out

/-- The loop state an outcome carries on with, if the process is still running. -/
def VfioOutcome.state : VfioOutcome → Option VfioLoop
  | .next s _ => some s
  | .exit _ _ => none

/-- One pass through `while (1)` of vfio_swap's `main`. -/
def vfio_cycle (c : Config) (s : VfioLoop) (map_ret : Int) (u : UnmapIoctl) :
    VfioOutcome :=
  let count := (s.count + 1) % 2 ^ 64
  let out0 := if count % 1000 = 0 then [VfioMsg.dot] else []
  let x := s.mem (c.PAGE_SIZE - 1)
  let mapped := dma_map map_ret
  if mapped.1 ≠ 0 then
    VfioOutcome.exit (exit_status (-1)) (out0 ++ mapped.2 ++ [VfioMsg.dma_map_failed])
  else
    let mem := store s.mem (c.PAGE_SIZE - 1) x
    let unmapped := dma_unmap (to_int32 c.PAGE_SIZE) u
    if to_u64 unmapped.1 ≠ c.PAGE_SIZE % 2 ^ 64 then
      VfioOutcome.exit (exit_status (-1))
        (out0 ++ mapped.2 ++ unmapped.2 ++ [VfioMsg.dma_unmap_failed])
    else
      VfioOutcome.next ⟨mem, count⟩ (out0 ++ mapped.2 ++ unmapped.2)

/-- The mapping loop over a finite list of ioctl results; it stops at the first
`exit`. -/
def vfio_run (c : Config) : VfioLoop → List (Int × UnmapIoctl) → VfioOutcome
  | s, [] => VfioOutcome.next s []
  | s, io :: ios =>
    match vfio_cycle c s io.1 io.2 with
    | VfioOutcome.exit status out => VfioOutcome.exit status out
    | VfioOutcome.next s1 out =>
      match vfio_run c s1 ios with
      | VfioOutcome.exit status out1 => VfioOutcome.exit status (out ++ out1)
      | VfioOutcome.next s2 out1 => VfioOutcome.next s2 (out ++ out1)

/-! ## The swap check of `io_uring_swap` and `vfio_swap` -/

/-- What the `getline`/`sscanf` loop over `/proc/meminfo` leaves in the four
`unsigned long` variables and in the counter `match`. -/
structure Meminfo where
  mem_total : Nat
  mem_avail : Nat
  swap_total : Nat
  swap_free : Nat
  matched : Nat
deriving DecidableEq, Repr

/-- The values lie in the range of `unsigned long`. -/
def Meminfo.in_range (mi : Meminfo) : Prop :=
  mi.mem_total < 2 ^ 64 ∧ mi.mem_avail < 2 ^ 64 ∧ mi.swap_total < 2 ^ 64 ∧
    mi.swap_free < 2 ^ 64

instance (mi : Meminfo) : Decidable mi.in_range := by
  unfold Meminfo.in_range
  infer_instance

/-- How the check ends. -/
inductive Preflight
  /-- Text `/proc/meminfo error`, then `exit(1)`. -/
  | meminfo_error
  /-- Text `not enough swap`, then `exit(1)`. -/
  | not_enough_swap
  /-- The check passed; `size` is the value later handed to `background_swap`. -/
  | proceed (size : Nat)
deriving DecidableEq, Repr

/-- The wait status when the check ends the process. -/
def Preflight.status : Preflight → Option Nat
  | .meminfo_error => some (exit_status 1)
  | .not_enough_swap => some (exit_status 1)
  | .proceed _ => none

/-- The lines of `main` from `unsigned long size_kb = mem_total + 1024*1024;` to
`unsigned long size = size_kb * 1024;`, the same in io_uring_swap and vfio_swap.
All arithmetic is that of `unsigned long`. -/
def preflight (mi : Meminfo) : Preflight :=
  let size_kb := (mi.mem_total + 1024 * 1024) % 2 ^ 64
  if mi.matched ≠ 4 ∨ mi.swap_free > mi.swap_total then Preflight.meminfo_error
  else if mi.swap_total = 0 ∨ mi.swap_free = 0 ∨
      mi.swap_free < (size_kb + 2 ^ 64 - mi.mem_avail) % 2 ^ 64 then
    Preflight.not_enough_swap
  else Preflight.proceed (size_kb * 1024 % 2 ^ 64)

/-! ## `vmsplice-oom`: argument check and page arithmetic -/

/-- The variables the argument loop of `main` sets: `multi_process`, `linear` and the
counter `match`. -/
structure Flags where
  multi_process : Bool
  linear : Bool
  matched : Nat
deriving DecidableEq, Repr

/-- One pass of `for (int i=1; i < argc; i++)` on `argv[i]`: the two `strcmp` tests. -/
def parse_step (f : Flags) (arg : String) : Flags :=
  let f1 : Flags := if arg = "--fork" then ⟨true, f.linear, f.matched + 1⟩ else f
  if arg = "--linear" then ⟨f1.multi_process, true, f1.matched + 1⟩ else f1

/-- How the argument check of `main` ends. -/
inductive Parsed
  /-- The usage line is printed, then `exit(1)`. -/
  | usage (status : Nat)
  /-- The check passed with these values of `multi_process` and `linear`. -/
  | ok (multi_process : Bool) (linear : Bool)
deriving DecidableEq, Repr

/-- The start of `main` of vmsplice-oom, up to `if (match != argc)`; `argv` holds
`argv[0] .. argv[argc-1]`. -/
def parse_args (argv : List String) : Parsed :=
  let argc := argv.length
  let f := (argv.drop 1).foldl parse_step ⟨false, false, 1⟩
  if f.matched ≠ argc then Parsed.usage (exit_status 1)
  else Parsed.ok f.multi_process f.linear

/-- The constant `_PAGE_SHIFT`. -/
def _PAGE_SHIFT : Nat := 12

/-- The constant `_PAGE_SIZE`, `(1UL<<_PAGE_SHIFT)`. -/
def _PAGE_SIZE : Nat := 1 <<< _PAGE_SHIFT

/-- The constant `NONLINAER_SHIFT`. -/
def NONLINAER_SHIFT : Nat := 9

/-- The constant `PAGES_TO_PIN`. -/
def PAGES_TO_PIN : Nat := 256

/-- The operator `~` on `unsigned long`. -/
def not64 (x : Nat) : Nat := 2 ^ 64 - 1 - x % 2 ^ 64

/-- The variables of `main` that fix the layout of one mapping. -/
structure Layout where
  page_size : Nat
  page_mask : Nat
  area_size : Nat
  linear : Bool
  pages_to_pin : Nat
deriving DecidableEq, Repr

/-- The layout computed before the loop, from the flag `linear`. -/
def layout_start (linear : Bool) : Layout :=
  let page_size := if !linear then (_PAGE_SIZE <<< NONLINAER_SHIFT) % 2 ^ 64 else _PAGE_SIZE
  let page_mask := not64 ((page_size + 2 ^ 64 - 1) % 2 ^ 64)
  let area_size := (page_size * PAGES_TO_PIN + not64 page_mask) % 2 ^ 64
  ⟨page_size, page_mask, area_size, linear, PAGES_TO_PIN⟩

/-- The assignments made when `fcntl(F_SETPIPE_SZ)` fails, before `continue`. -/
def layout_fallback (_l : Layout) : Layout :=
  let page_size := _PAGE_SIZE
  let page_mask := not64 ((page_size + 2 ^ 64 - 1) % 2 ^ 64)
  let area_size := (page_size + not64 page_mask) % 2 ^ 64
  ⟨page_size, page_mask, area_size, true, 1⟩

/-- The pointer `page`, as an address:
`(((unsigned long) area) + ~page_mask) & page_mask`. -/
def page_of (l : Layout) (area : Nat) : Nat :=
  ((area + not64 l.page_mask) % 2 ^ 64) &&& l.page_mask

/-- The pointer `_page` of pass `i` of the touching loop: `page + i * page_size` in the
non-linear branch, `page + i * _PAGE_SIZE` in the linear one. -/
def pinned_start (l : Layout) (area i : Nat) : Nat :=
  if !l.linear then (page_of l area + i * l.page_size % 2 ^ 64) % 2 ^ 64
  else (page_of l area + i * _PAGE_SIZE % 2 ^ 64) % 2 ^ 64

/-! ## Predicates used to state the properties -/

/-- The ranges `mem[a .. a+n)` and `mem[b .. b+n)` hold the same bytes. -/
def agree (m : Mem) (a b n : Nat) : Prop :=
  ∀ i, i < n → m (a + i) = m (b + i)

instance (m : Mem) (a b n : Nat) : Decidable (agree m a b n) := by
  unfold agree
  infer_instance

/-- Pages 1 and 2 (Reference and Poison) hold what the set-up of the buffer put
there: zeros, except `0xff` in the first `HARDBLKSIZE` bytes of page 2. -/
def zones_intact (c : Config) (m : Mem) : Prop :=
  ∀ i, c.PAGE_SIZE ≤ i → i < 3 * c.PAGE_SIZE → m i = init_region c (fun _ => 0) i

instance (c : Config) (m : Mem) : Decidable (zones_intact c m) :=
  decidable_of_iff
    (∀ j, j < 2 * c.PAGE_SIZE →
      m (c.PAGE_SIZE + j) = init_region c (fun _ => 0) (c.PAGE_SIZE + j))
    ⟨fun h i h1 h2 => by
      have := h (i - c.PAGE_SIZE) (by omega)
      have e : c.PAGE_SIZE + (i - c.PAGE_SIZE) = i := by omega
      rw [e] at this
      exact this,
     fun h j hj => h (c.PAGE_SIZE + j) (by omega) (by omega)⟩

/-! ## Theorems -/

theorem memcmp_eq_zero_iff (m : Mem) (n : Nat) : ∀ s1 s2 : Nat,
    memcmp m s1 s2 n = 0 ↔ ∀ i, i < n → m (s1 + i) = m (s2 + i) := by
  induction n with
  | zero => intro s1 s2; simp [memcmp]
  | succ n ih =>
    intro s1 s2
    by_cases h : m s1 = m s2
    · rw [memcmp, if_pos h, ih]
      constructor
      · intro hall i hi
        cases i with
        | zero => simpa using h
        | succ j =>
          have := hall j (by omega)
          have e1 : s1 + (j + 1) = s1 + 1 + j := by omega
          have e2 : s2 + (j + 1) = s2 + 1 + j := by omega
          rw [e1, e2]; exact this
      · intro hall i hi
        have := hall (i + 1) (by omega)
        have e1 : s1 + (i + 1) = s1 + 1 + i := by omega
        have e2 : s2 + (i + 1) = s2 + 1 + i := by omega
        rw [e1, e2] at this; exact this
    · rw [memcmp, if_neg h]
      constructor
      · intro hz
        exfalso
        apply h
        apply Fin.ext
        omega
      · intro hall
        exact absurd (by simpa using hall 0 (by omega)) h

theorem init_region_bytes (c : Config) (prior : Mem) :
    (∀ i, i < 2 * c.PAGE_SIZE → init_region c prior i = 0) ∧
    (∀ i, 2 * c.PAGE_SIZE ≤ i → i < 2 * c.PAGE_SIZE + c.HARDBLKSIZE →
      init_region c prior i = 255) ∧
    (∀ i, 2 * c.PAGE_SIZE + c.HARDBLKSIZE ≤ i → i < 3 * c.PAGE_SIZE →
      init_region c prior i = 0) := by
  refine ⟨fun i hi => ?_, fun i h1 h2 => ?_, fun i h1 h2 => ?_⟩
  · have h : ¬ (c.PAGE_SIZE * 2 ≤ i ∧ i < c.PAGE_SIZE * 2 + c.HARDBLKSIZE) := by omega
    have h0 : (0 ≤ i ∧ i < 0 + c.PAGE_SIZE * 3) := by omega
    simp only [init_region, memset, bzero, if_neg h, if_pos h0]
  · have h : (c.PAGE_SIZE * 2 ≤ i ∧ i < c.PAGE_SIZE * 2 + c.HARDBLKSIZE) := by omega
    simp only [init_region, memset, if_pos h]
    rfl
  · have h : ¬ (c.PAGE_SIZE * 2 ≤ i ∧ i < c.PAGE_SIZE * 2 + c.HARDBLKSIZE) := by omega
    have h0 : (0 ≤ i ∧ i < 0 + c.PAGE_SIZE * 3) := by omega
    simp only [init_region, memset, bzero, if_neg h, if_pos h0]


theorem cycle_next (v : Variant) (c : Config) (s : Loop) (rd : ReadResult)
    (h : (cycle v c s rd).status = none) :
    ∃ out, cycle v c s rd =
      Outcome.next (toggle c (after_read c s.mem rd) s.skip_memset) out := by
  unfold cycle at h ⊢
  by_cases hr : rd.ret ≠ (c.HARDBLKSIZE : Int)
  · simp [hr, Outcome.status] at h
  · simp only [hr, if_false] at h ⊢
    rcases hd : detect v c (after_read c s.mem rd) s.skip_memset with ⟨out, code⟩
    rw [hd] at h
    cases code with
    | some code => simp [Outcome.status] at h
    | none => exact ⟨_, rfl⟩

theorem cycle_flag (v : Variant) (c : Config) (s : Loop) (rd : ReadResult)
    (h : (cycle v c s rd).status = none) :
    ∃ s1 out, cycle v c s rd = Outcome.next s1 out ∧ s1.skip_memset = !s.skip_memset := by
  unfold cycle at h ⊢
  by_cases hr : rd.ret ≠ (c.HARDBLKSIZE : Int)
  · simp [hr, Outcome.status] at h
  · simp only [hr, if_false] at h ⊢
    rcases hd : detect v c (after_read c s.mem rd) s.skip_memset with ⟨out, code⟩
    rw [hd] at h
    cases code with
    | some code => simp [Outcome.status] at h
    | none => exact ⟨_, _, rfl, rfl⟩

theorem run_cons_next (v : Variant) (c : Config) (s s1 : Loop) (rd : ReadResult)
    (rds : List ReadResult) (out : List Msg) (h : cycle v c s rd = Outcome.next s1 out) :
    (run v c s (rd :: rds)).state = (run v c s1 rds).state ∧
    (run v c s (rd :: rds)).status = (run v c s1 rds).status ∧
    (run v c s (rd :: rds)).out = out ++ (run v c s1 rds).out := by
  have e : run v c s (rd :: rds) =
      (match run v c s1 rds with
        | Outcome.exit status out1 => Outcome.exit status (out ++ out1)
        | Outcome.next s2 out1 => Outcome.next s2 (out ++ out1)) := by
    rw [run, h]
  rw [e]
  cases run v c s1 rds <;> simp [Outcome.state, Outcome.status, Outcome.out]

theorem run_cons_exit (v : Variant) (c : Config) (s : Loop) (rd : ReadResult)
    (rds : List ReadResult) (status : Nat) (out : List Msg)
    (h : cycle v c s rd = Outcome.exit status out) :
    run v c s (rd :: rds) = Outcome.exit status out := by
  rw [run, h]

theorem run_cons_status (v : Variant) (c : Config) (s : Loop) (rd : ReadResult)
    (rds : List ReadResult) (h : (run v c s (rd :: rds)).status = none) :
    (cycle v c s rd).status = none := by
  cases hc : cycle v c s rd with
  | next s1 out => rfl
  | exit status out => rw [run_cons_exit v c s rd rds status out hc] at h; exact h

theorem run_flag (v : Variant) (c : Config) (rds : List ReadResult) :
    ∀ (s : Loop), (run v c s rds).status = none → ∀ k, k ≤ rds.length →
      (run v c s (rds.take k)).state.map Loop.skip_memset
        = some (if k % 2 = 0 then s.skip_memset else !s.skip_memset) := by
  induction rds with
  | nil =>
    intro s _ k hk
    have : k = 0 := by simpa using hk
    subst this
    simp [run, Outcome.state]
  | cons rd rds ih =>
    intro s h k hk
    cases k with
    | zero => simp [run, Outcome.state]
    | succ k =>
      obtain ⟨s1, out, hc, hflag⟩ := cycle_flag v c s rd (run_cons_status v c s rd rds h)
      have hrest : (run v c s1 rds).status = none := by
        rw [← (run_cons_next v c s s1 rd rds out hc).2.1]; exact h
      have hk1 : k ≤ rds.length := by simpa using hk
      rw [List.take_succ_cons, (run_cons_next v c s s1 rd _ out hc).1, ih s1 hrest k hk1, hflag]
      rcases Nat.mod_two_eq_zero_or_one k with h0 | h0
      · have : (k + 1) % 2 = 1 := by omega
        simp [h0, this]
      · have : (k + 1) % 2 = 0 := by omega
        simp [h0, this]

theorem init_region_zones_intact (c : Config) (prior : Mem) :
    zones_intact c (init_region c prior) := by
  intro i h1 h2
  have h0 : (0 ≤ i ∧ i < 0 + c.PAGE_SIZE * 3) := by omega
  simp only [init_region, memset, bzero, if_pos h0]

theorem zones_intact_reference (c : Config) (m : Mem) (h : zones_intact c m) (i : Nat)
    (h1 : c.PAGE_SIZE ≤ i) (h2 : i < 2 * c.PAGE_SIZE) : m i = 0 := by
  rw [h i h1 (by omega)]
  exact (init_region_bytes c _).1 i h2

theorem zones_intact_poison_head (c : Config) (m : Mem) (h : zones_intact c m) (i : Nat)
    (h1 : 2 * c.PAGE_SIZE ≤ i) (h2 : i < 2 * c.PAGE_SIZE + c.HARDBLKSIZE)
    (h3 : i < 3 * c.PAGE_SIZE) : m i = 255 := by
  rw [h i (by omega) h3]
  exact (init_region_bytes c _).2.1 i h1 h2

theorem zones_intact_poison_tail (c : Config) (m : Mem) (h : zones_intact c m) (i : Nat)
    (h1 : 2 * c.PAGE_SIZE + c.HARDBLKSIZE ≤ i) (h2 : i < 3 * c.PAGE_SIZE) : m i = 0 := by
  rw [h i (by omega) h2]
  exact (init_region_bytes c _).2.2 i h1 h2

theorem after_read_frame (c : Config) (m : Mem) (rd : ReadResult) (i : Nat)
    (h : c.HARDBLKSIZE ≤ i) : after_read c m rd i = m i := by
  have : ¬ i < min rd.got c.HARDBLKSIZE := by
    have := Nat.min_le_right rd.got c.HARDBLKSIZE
    omega
  simp only [after_read, if_neg this]

theorem after_read_zones_intact (c : Config) (hH : c.HARDBLKSIZE ≤ c.PAGE_SIZE) (m : Mem)
    (rd : ReadResult) (h : zones_intact c m) : zones_intact c (after_read c m rd) := by
  intro i h1 h2
  rw [after_read_frame c m rd i (by omega)]
  exact h i h1 h2

theorem op_apply_frame (c : Config) (hH : c.HARDBLKSIZE ≤ c.PAGE_SIZE)
    (op : HarnessOp) (m : Mem) (i : Nat) (h1 : c.PAGE_SIZE ≤ i) (h2 : i < 3 * c.PAGE_SIZE) :
    op.apply c m i = m i := by
  have hne : i ≠ c.PAGE_SIZE - 1 := by omega
  cases op with
  | writer v => cases v <;> simp [HarnessOp.apply, writer, store, hne]
  | read rd => exact after_read_frame c m rd i (by omega)
  | classify v b => rfl
  | compensate =>
    have : ¬ i < c.HARDBLKSIZE := by omega
    simp [HarnessOp.apply, memset, this]

theorem apply_ops_frame (c : Config) (hH : c.HARDBLKSIZE ≤ c.PAGE_SIZE)
    (ops : List HarnessOp) : ∀ (m : Mem) (i : Nat), c.PAGE_SIZE ≤ i → i < 3 * c.PAGE_SIZE →
    apply_ops c ops m i = m i := by
  induction ops with
  | nil => intro m i _ _; rfl
  | cons op ops ih =>
    intro m i h1 h2
    have : apply_ops c (op :: ops) m = apply_ops c ops (op.apply c m) := rfl
    rw [this, ih _ i h1 h2, op_apply_frame c hH op m i h1 h2]

theorem to_int32_small (n : Nat) (h : n < 2 ^ 31) : to_int32 n = (n : Int) := by
  have h1 : n % 2 ^ 32 = n := Nat.mod_eq_of_lt (by omega)
  simp only [to_int32, h1, if_pos h]

/-- The tail comparison of the source, `memcmp(mem+HARDBLKSIZE, mem+PAGE_SIZE,
PAGE_SIZE-HARDBLKSIZE)`, against the first bytes of page 1, decides whether
`mem[HARDBLKSIZE:PAGE_SIZE]` equals the same range of page 1 when page 1 is all zero. -/
theorem tail_cmp_iff (c : Config) (hH : c.HARDBLKSIZE ≤ c.PAGE_SIZE) (w : Mem)
    (hz : zones_intact c w) :
    memcmp w c.HARDBLKSIZE c.PAGE_SIZE (c.PAGE_SIZE - c.HARDBLKSIZE) = 0 ↔
      agree w c.HARDBLKSIZE (c.PAGE_SIZE + c.HARDBLKSIZE) (c.PAGE_SIZE - c.HARDBLKSIZE) := by
  rw [memcmp_eq_zero_iff]
  constructor
  · intro h i hi
    rw [h i hi, zones_intact_reference c w hz _ (by omega) (by omega),
      zones_intact_reference c w hz _ (by omega) (by omega)]
  · intro h i hi
    rw [h i hi, zones_intact_reference c w hz _ (by omega) (by omega),
      zones_intact_reference c w hz _ (by omega) (by omega)]

/-- The dump branch of the classification: entered when the first `HARDBLKSIZE`
bytes differ from page 1 and the page differs from page 2 somewhere. -/
theorem detect_dump (v : Variant) (c : Config) (w : Mem) (skip : Bool)
    (h1 : ¬ agree w 0 c.PAGE_SIZE c.HARDBLKSIZE)
    (h2 : ¬ agree w 0 (c.PAGE_SIZE * 2) c.PAGE_SIZE) :
    detect v c w skip =
      ([if skip then Msg.unexpected_corruption else Msg.corruption_dumping_page,
        Msg.dump ((List.range (Int.toNat
          (if memcmp w c.HARDBLKSIZE c.PAGE_SIZE (c.PAGE_SIZE - c.HARDBLKSIZE) = 0
            then (c.HARDBLKSIZE : Int) else to_int32 c.PAGE_SIZE))).map w)], none) := by
  have e1 : memcmp w 0 c.PAGE_SIZE c.HARDBLKSIZE ≠ 0 := by
    rw [Ne, memcmp_eq_zero_iff]; exact h1
  have e2 : memcmp w 0 (c.PAGE_SIZE * 2) c.PAGE_SIZE ≠ 0 := by
    rw [Ne, memcmp_eq_zero_iff]; exact h2
  simp only [detect, if_pos e1, if_pos e2]

theorem not_agree_mono (m : Mem) (a b n k : Nat) (hk : n ≤ k) (h : ¬ agree m a b n) :
    ¬ agree m a b k :=
  fun hall => h (fun i hi => hall i (by omega))

theorem cycle_of_detect (v : Variant) (c : Config) (s : Loop) (rd : ReadResult)
    (out : List Msg) (hret : rd.ret = (c.HARDBLKSIZE : Int))
    (hd : detect v c (after_read c s.mem rd) s.skip_memset = (out, none)) :
    cycle v c s rd = Outcome.next (toggle c (after_read c s.mem rd) s.skip_memset) out := by
  have : ¬ rd.ret ≠ (c.HARDBLKSIZE : Int) := fun h => h hret
  simp only [cycle, if_neg this, hd]

/-- The branch taken when the first `HARDBLKSIZE` bytes differ from page 1 and the
whole page equals page 2. -/
theorem detect_poison_page (v : Variant) (c : Config) (w : Mem) (skip : Bool)
    (h1 : ¬ agree w 0 c.PAGE_SIZE c.HARDBLKSIZE)
    (h2 : agree w 0 (c.PAGE_SIZE * 2) c.PAGE_SIZE) :
    detect v c w skip =
      ([Msg.corruption_detected],
        match v with
        | .io_uring_swap => some (-1)
        | .page_count_do_wp_page => none
        | .page_count_do_wp_page_swap => none) := by
  have e1 : memcmp w 0 c.PAGE_SIZE c.HARDBLKSIZE ≠ 0 := by
    rw [Ne, memcmp_eq_zero_iff]; exact h1
  have e2 : ¬ memcmp w 0 (c.PAGE_SIZE * 2) c.PAGE_SIZE ≠ 0 := by
    rw [Ne, memcmp_eq_zero_iff]; exact fun h => h h2
  simp only [detect, if_pos e1, if_neg e2]
  cases v <;> rfl

/-- The match path: the first `HARDBLKSIZE` bytes equal those of page 1. -/
theorem detect_match (v : Variant) (c : Config) (w : Mem) (skip : Bool)
    (h1 : agree w 0 c.PAGE_SIZE c.HARDBLKSIZE) :
    detect v c w skip = ([], none) := by
  have e1 : ¬ memcmp w 0 c.PAGE_SIZE c.HARDBLKSIZE ≠ 0 := by
    rw [Ne, memcmp_eq_zero_iff]; exact fun h => h h1
  simp only [detect, if_neg e1]

theorem cycle_of_detect_exit (v : Variant) (c : Config) (s : Loop) (rd : ReadResult)
    (out : List Msg) (code : Int) (hret : rd.ret = (c.HARDBLKSIZE : Int))
    (hd : detect v c (after_read c s.mem rd) s.skip_memset = (out, some code)) :
    cycle v c s rd = Outcome.exit (exit_status code) out := by
  have : ¬ rd.ret ≠ (c.HARDBLKSIZE : Int) := fun h => h hret
  simp only [cycle, if_neg this, hd]

/-- With pages 1 and 2 intact, the whole Working page equals the Poison page exactly
when its first `HARDBLKSIZE` bytes equal Poison's and the rest equals the same range
of Reference (both ranges being zero). -/
theorem page_eq_poison_iff (c : Config) (hH : c.HARDBLKSIZE ≤ c.PAGE_SIZE) (w : Mem)
    (hz : zones_intact c w) (hhead : agree w 0 (2 * c.PAGE_SIZE) c.HARDBLKSIZE) :
    agree w 0 (c.PAGE_SIZE * 2) c.PAGE_SIZE ↔
      agree w c.HARDBLKSIZE (c.PAGE_SIZE + c.HARDBLKSIZE) (c.PAGE_SIZE - c.HARDBLKSIZE) := by
  constructor
  · intro h i hi
    have := h (c.HARDBLKSIZE + i) (by omega)
    rw [Nat.zero_add] at this
    rw [this, zones_intact_poison_tail c w hz _ (by omega) (by omega),
      zones_intact_reference c w hz _ (by omega) (by omega)]
  · intro h i hi
    by_cases hlt : i < c.HARDBLKSIZE
    · have := hhead i hlt
      rw [Nat.mul_comm]; exact this
    · have := h (i - c.HARDBLKSIZE) (by omega)
      have e1 : c.HARDBLKSIZE + (i - c.HARDBLKSIZE) = i := by omega
      rw [e1] at this
      have r := zones_intact_reference c w hz
        (c.PAGE_SIZE + c.HARDBLKSIZE + (i - c.HARDBLKSIZE)) (by omega) (by omega)
      have t := zones_intact_poison_tail c w hz (c.PAGE_SIZE * 2 + i) (by omega) (by omega)
      rw [Nat.zero_add, this, r, t]

/-- What a pass does when the first `HARDBLKSIZE` bytes of Working differ from
Reference's and equal Poison's: shared by the statements about that case. -/
theorem cycle_poison_head (v : Variant) (c : Config) (s : Loop) (rd : ReadResult)
    (hP : c.PAGE_SIZE < 2 ^ 31) (hH : c.HARDBLKSIZE ≤ c.PAGE_SIZE)
    (hz : zones_intact c s.mem) (hret : rd.ret = (c.HARDBLKSIZE : Int))
    (href : ¬ agree (after_read c s.mem rd) 0 c.PAGE_SIZE c.HARDBLKSIZE)
    (hpoison : agree (after_read c s.mem rd) 0 (2 * c.PAGE_SIZE) c.HARDBLKSIZE) :
    (agree (after_read c s.mem rd) c.HARDBLKSIZE (c.PAGE_SIZE + c.HARDBLKSIZE)
        (c.PAGE_SIZE - c.HARDBLKSIZE) →
      cycle v c s rd =
        match v with
        | .io_uring_swap => Outcome.exit 255 [Msg.corruption_detected]
        | .page_count_do_wp_page =>
          Outcome.next (toggle c (after_read c s.mem rd) s.skip_memset)
            [Msg.corruption_detected]
        | .page_count_do_wp_page_swap =>
          Outcome.next (toggle c (after_read c s.mem rd) s.skip_memset)
            [Msg.corruption_detected]) ∧
    (¬ agree (after_read c s.mem rd) c.HARDBLKSIZE (c.PAGE_SIZE + c.HARDBLKSIZE)
        (c.PAGE_SIZE - c.HARDBLKSIZE) →
      cycle v c s rd =
        Outcome.next (toggle c (after_read c s.mem rd) s.skip_memset)
          [if s.skip_memset then Msg.unexpected_corruption else Msg.corruption_dumping_page,
            Msg.dump ((List.range c.PAGE_SIZE).map (after_read c s.mem rd))]) := by
  have hzw := after_read_zones_intact c hH s.mem rd hz
  have hiff := page_eq_poison_iff c hH _ hzw hpoison
  have htail := tail_cmp_iff c hH (after_read c s.mem rd) hzw
  constructor
  · intro h
    have hd := detect_poison_page v c _ s.skip_memset href (hiff.2 h)
    cases v
    · exact cycle_of_detect_exit _ c s rd _ _ hret hd
    · exact cycle_of_detect _ c s rd _ hret hd
    · exact cycle_of_detect _ c s rd _ hret hd
  · intro h
    have hd := detect_dump v c _ s.skip_memset href (fun e => h (hiff.1 e))
    rw [if_neg (fun e => h (htail.1 e)), to_int32_small _ hP, Int.toNat_ofNat] at hd
    exact cycle_of_detect v c s rd _ hret hd

theorem memset_zones_intact (c : Config) (hH : c.HARDBLKSIZE ≤ c.PAGE_SIZE) (m : Mem)
    (h : zones_intact c m) : zones_intact c (memset m 0 0xff c.HARDBLKSIZE) := by
  intro i h1 h2
  have : ¬ (0 ≤ i ∧ i < 0 + c.HARDBLKSIZE) := by omega
  simp only [memset, if_neg this]
  exact h i h1 h2

theorem store_zones_intact (c : Config) (m : Mem) (a : Nat) (b : Byte)
    (ha : a < c.PAGE_SIZE) (h : zones_intact c m) : zones_intact c (store m a b) := by
  intro i h1 h2
  have : i ≠ a := by omega
  simp only [store, if_neg this]
  exact h i h1 h2

theorem toggle_zones_intact (c : Config) (hH : c.HARDBLKSIZE ≤ c.PAGE_SIZE) (m : Mem)
    (skip : Bool) (h : zones_intact c m) : zones_intact c (toggle c m skip).mem := by
  cases skip
  · exact h
  · exact memset_zones_intact c hH m h

theorem run_zones_intact (v : Variant) (c : Config) (hH : c.HARDBLKSIZE ≤ c.PAGE_SIZE)
    (rds : List ReadResult) : ∀ (s s1 : Loop), zones_intact c s.mem →
    (run v c s rds).state = some s1 → zones_intact c s1.mem := by
  induction rds with
  | nil =>
    intro s s1 hz h
    have : s = s1 := by simpa [run, Outcome.state] using h
    rw [← this]; exact hz
  | cons rd rds ih =>
    intro s s1 hz h
    cases hc : cycle v c s rd with
    | exit status out =>
      rw [run_cons_exit v c s rd rds status out hc] at h
      simp [Outcome.state] at h
    | next s2 out =>
      obtain ⟨out1, hn⟩ := cycle_next v c s rd (by rw [hc]; rfl)
      rw [(run_cons_next v c s _ rd rds out1 hn).1] at h
      exact ih _ s1 (toggle_zones_intact c hH _ s.skip_memset
        (after_read_zones_intact c hH s.mem rd hz)) h

theorem after_read_head (c : Config) (m : Mem) (rd : ReadResult) (i : Nat)
    (hgot : rd.got = c.HARDBLKSIZE) (hi : i < c.HARDBLKSIZE) :
    after_read c m rd i = rd.data i := by
  have : i < min rd.got c.HARDBLKSIZE := by rw [hgot, Nat.min_self]; exact hi
  simp only [after_read, if_pos this]

theorem head_agree_poison (c : Config) (hH : c.HARDBLKSIZE ≤ c.PAGE_SIZE) (w : Mem)
    (hz : zones_intact c w) (hw : ∀ i, i < c.HARDBLKSIZE → w i = 255) :
    agree w 0 (2 * c.PAGE_SIZE) c.HARDBLKSIZE := by
  intro i hi
  rw [Nat.zero_add, hw i hi,
    zones_intact_poison_head c w hz (2 * c.PAGE_SIZE + i) (by omega) (by omega) (by omega)]

theorem head_differs_reference (c : Config) (hH : c.HARDBLKSIZE ≤ c.PAGE_SIZE)
    (h0 : 0 < c.HARDBLKSIZE) (w : Mem) (hz : zones_intact c w) (hw : w 0 ≠ 0) :
    ¬ agree w 0 c.PAGE_SIZE c.HARDBLKSIZE := by
  intro h
  have := h 0 h0
  rw [Nat.add_zero, Nat.add_zero,
    zones_intact_reference c w hz c.PAGE_SIZE (Nat.le_refl _) (by omega)] at this
  exact hw this

theorem tail_agree_of_zero (c : Config) (hH : c.HARDBLKSIZE ≤ c.PAGE_SIZE) (w : Mem)
    (hz : zones_intact c w)
    (hw : ∀ i, c.HARDBLKSIZE ≤ i → i < c.PAGE_SIZE → w i = 0) :
    agree w c.HARDBLKSIZE (c.PAGE_SIZE + c.HARDBLKSIZE) (c.PAGE_SIZE - c.HARDBLKSIZE) := by
  intro i hi
  rw [hw _ (by omega) (by omega),
    zones_intact_reference c w hz _ (by omega) (by omega)]

theorem tail_differs_of_nonzero (c : Config) (hH : c.HARDBLKSIZE ≤ c.PAGE_SIZE) (w : Mem)
    (hz : zones_intact c w) (a : Nat) (h1 : c.HARDBLKSIZE ≤ a) (h2 : a < c.PAGE_SIZE)
    (hw : w a ≠ 0) :
    ¬ agree w c.HARDBLKSIZE (c.PAGE_SIZE + c.HARDBLKSIZE) (c.PAGE_SIZE - c.HARDBLKSIZE) := by
  intro h
  have := h (a - c.HARDBLKSIZE) (by omega)
  have e1 : c.HARDBLKSIZE + (a - c.HARDBLKSIZE) = a := by omega
  rw [e1] at this
  have r := zones_intact_reference c w hz
    (c.PAGE_SIZE + c.HARDBLKSIZE + (a - c.HARDBLKSIZE)) (by omega) (by omega)
  exact hw (this.trans r)

theorem file_of_length (c : Config) (m : Mem) : (file_of c m).length = c.PAGE_SIZE := by
  simp [file_of]

theorem file_of_getD (c : Config) (m : Mem) (i : Nat) (hi : i < c.PAGE_SIZE) :
    (file_of c m).getD i 0 = m i := by
  simp [file_of, List.getD, hi]

theorem quiet_read_ret (v : Variant) (c : Config) (file : List Byte)
    (h : c.HARDBLKSIZE ≤ file.length) :
    (quiet_read v c file).ret = (c.HARDBLKSIZE : Int) ∧
    (quiet_read v c file).got = c.HARDBLKSIZE ∧
    (quiet_read v c file).data = fun i => file.getD i 0 := by
  have hmin : min c.HARDBLKSIZE file.length = c.HARDBLKSIZE := Nat.min_eq_left h
  cases v
  · simp [quiet_read, uring_result, io_uring_read_fixed, pread, hmin]
  · simp [quiet_read, pread, hmin]
  · simp [quiet_read, pread, hmin]

/-- A pass of the quiet run: pages 1 and 2 stay intact, nothing is printed and the
process carries on. -/
theorem quiet_cycle (v : Variant) (c : Config) (hH : c.HARDBLKSIZE ≤ c.PAGE_SIZE)
    (prior : Mem) (s : Loop) (hz : zones_intact c s.mem) :
    cycle v c s (quiet_read v c (main_start c prior).file) =
      Outcome.next
        (toggle c (after_read c s.mem (quiet_read v c (main_start c prior).file))
          s.skip_memset) [] := by
  have hlen : c.HARDBLKSIZE ≤ (main_start c prior).file.length := by
    have : (main_start c prior).file.length = c.PAGE_SIZE := file_of_length c _
    omega
  obtain ⟨hret, hgot, hdata⟩ := quiet_read_ret v c _ hlen
  have hzw := after_read_zones_intact c hH s.mem
    (quiet_read v c (main_start c prior).file) hz
  apply cycle_of_detect v c s _ [] hret
  apply detect_match
  intro i hi
  rw [Nat.zero_add, after_read_head c _ _ i hgot hi, hdata,
    zones_intact_reference c _ hzw (c.PAGE_SIZE + i) (by omega) (by omega)]
  have : (main_start c prior).file.getD i 0 = init_region c prior i :=
    file_of_getD c _ i (by omega)
  show (main_start c prior).file.getD i 0 = 0
  rw [this]
  exact (init_region_bytes c prior).1 i (by omega)

theorem quiet_run (v : Variant) (c : Config) (hH : c.HARDBLKSIZE ≤ c.PAGE_SIZE)
    (prior : Mem) (N : Nat) : ∀ (s : Loop), zones_intact c s.mem →
    (run v c s (List.replicate N (quiet_read v c (main_start c prior).file))).status = none ∧
    (run v c s (List.replicate N (quiet_read v c (main_start c prior).file))).out = [] := by
  induction N with
  | zero => intro s _; exact ⟨rfl, rfl⟩
  | succ N ih =>
    intro s hz
    have hc := quiet_cycle v c hH prior s hz
    have hnext := run_cons_next v c s _ _
      (List.replicate N (quiet_read v c (main_start c prior).file)) [] hc
    have hrest := ih
      (toggle c (after_read c s.mem (quiet_read v c (main_start c prior).file)) s.skip_memset)
      (toggle_zones_intact c hH _ s.skip_memset
        (after_read_zones_intact c hH s.mem _ hz))
    rw [List.replicate_succ, hnext.2.1, hnext.2.2, hrest.1, hrest.2]
    exact ⟨rfl, rfl⟩

theorem cycle_bad_read (v : Variant) (c : Config) (s : Loop) (rd : ReadResult)
    (h : rd.ret ≠ (c.HARDBLKSIZE : Int)) :
    cycle v c s rd = Outcome.exit (exit_status (read_failure_code v)) [Msg.read_failed] := by
  simp only [cycle, if_pos h]

/-- C1: whatever the buffer held before, after `bzero` of three pages and the
`memset` of `0xff` over `HARDBLKSIZE` bytes at `2*PAGE_SIZE`, every byte of pages
0 and 1 is 0, the bytes `[2*PAGE_SIZE, 2*PAGE_SIZE+HARDBLKSIZE)` are `0xff`, and
the bytes `[2*PAGE_SIZE+HARDBLKSIZE, 3*PAGE_SIZE)` are 0. -/
theorem init_region_contents (c : Config) (prior : Mem) :
    (∀ i, i < 2 * c.PAGE_SIZE → init_region c prior i = 0) ∧
    (∀ i, 2 * c.PAGE_SIZE ≤ i → i < 2 * c.PAGE_SIZE + c.HARDBLKSIZE →
      init_region c prior i = 255) ∧
    (∀ i, 2 * c.PAGE_SIZE + c.HARDBLKSIZE ≤ i → i < 3 * c.PAGE_SIZE →
      init_region c prior i = 0) :=
  init_region_bytes c prior

/-- C2: once the buffer is set up, no sequence of writer iterations, reads into
offset 0 of at most `HARDBLKSIZE` bytes, classification steps and compensating
`memset`s changes a byte of pages 1 and 2 (Reference and Poison); and in every state
the driver loop of any of the three reproducers reaches, those two pages hold what
the set-up put there. -/
theorem reference_poison_immutable (c : Config) (hH : c.HARDBLKSIZE ≤ c.PAGE_SIZE)
    (prior : Mem) (i : Nat) (h1 : c.PAGE_SIZE ≤ i) (h2 : i < 3 * c.PAGE_SIZE) :
    (∀ ops : List HarnessOp,
      apply_ops c ops (init_region c prior) i = init_region c prior i) ∧
    (∀ (v : Variant) (rds : List ReadResult) (s : Loop),
      (run v c (main_start c prior).loop rds).state = some s →
        s.mem i = init_region c prior i) := by
  refine ⟨fun ops => apply_ops_frame c hH ops (init_region c prior) i h1 h2, ?_⟩
  intro v rds s hs
  have hz := run_zones_intact v c hH rds (main_start c prior).loop s
    (init_region_zones_intact c prior) hs
  rw [hz i h1 h2, init_region_zones_intact c prior i h1 h2]

/-- C2 at the sizes of the sources, for byte 8192 (the first byte of Poison) and an
interleaving of all four operations. -/
theorem reference_poison_immutable_witness :
    apply_ops source_config
      [.read ⟨512, 512, fun _ => 255⟩, .writer .page_count_do_wp_page,
        .classify .io_uring_swap true, .compensate, .writer .io_uring_swap,
        .read ⟨512, 100, fun _ => 3⟩]
      (init_region source_config (fun _ => 7)) 8192
      = init_region source_config (fun _ => 7) 8192 :=
  (reference_poison_immutable source_config (by decide) (fun _ => 7) 8192
      (by decide) (by decide)).1 _

/-- C3: `skip_memset` is `true` when the loop is entered; every pass that does not end
the process flips it exactly once, whatever the classification printed; so in a run
of the loop that does not end the process the flag after `k` passes is `true` exactly
when `k` is even, for every `k` up to the number of passes made. -/
theorem toggle_consistency (v : Variant) (c : Config) (prior : Mem)
    (rds : List ReadResult)
    (h : (run v c (main_start c prior).loop rds).status = none) :
    (main_start c prior).loop.skip_memset = true ∧
    (∀ (s : Loop) (rd : ReadResult), (cycle v c s rd).status = none →
      (cycle v c s rd).state.map Loop.skip_memset = some (!s.skip_memset)) ∧
    (∀ k, k ≤ rds.length →
      (run v c (main_start c prior).loop (rds.take k)).state.map Loop.skip_memset
        = some (decide (k % 2 = 0))) := by
  refine ⟨rfl, ?_, ?_⟩
  · intro s rd hs
    obtain ⟨s1, out, hc, hflag⟩ := cycle_flag v c s rd hs
    rw [hc]
    simp [Outcome.state, hflag]
  · intro k hk
    rw [run_flag v c rds _ h k hk]
    have : (main_start c prior).loop.skip_memset = true := rfl
    rw [this]
    by_cases h0 : k % 2 = 0 <;> simp [h0]

/-- C3 on three passes of page_count_do_wp_page whose reads bring back bytes that
are neither zero nor the sentinel: the flag after the three passes is `false`. -/
theorem toggle_consistency_witness :
    (run .page_count_do_wp_page source_config (main_start source_config (fun _ => 7)).loop
      [⟨512, 512, fun _ => 1⟩, ⟨512, 512, fun _ => 2⟩, ⟨512, 512, fun _ => 3⟩]).status = none ∧
    (run .page_count_do_wp_page source_config (main_start source_config (fun _ => 7)).loop
      [⟨512, 512, fun _ => 1⟩, ⟨512, 512, fun _ => 2⟩, ⟨512, 512, fun _ => 3⟩]).state.map
        Loop.skip_memset = some false :=
  ⟨by decide,
    (toggle_consistency .page_count_do_wp_page source_config (fun _ => 7)
      [⟨512, 512, fun _ => 1⟩, ⟨512, 512, fun _ => 2⟩, ⟨512, 512, fun _ => 3⟩]
      (by decide)).2.2 3 (by decide)⟩

/-- C4: with pages 1 and 2 as the set-up left them, a pass whose read returned
`HARDBLKSIZE` and left a Working page whose first `HARDBLKSIZE` bytes differ from
those of Reference and from those of Poison prints a corruption message followed by
a dump of `mem[0 .. n)`, flips the flag and carries on; `n` is `HARDBLKSIZE` when
`mem[HARDBLKSIZE:PAGE_SIZE]` equals that range of Reference and `PAGE_SIZE` when it
does not, and it is `PAGE_SIZE` whenever `HARDBLKSIZE = PAGE_SIZE`. -/
theorem unexpected_corruption_dump (v : Variant) (c : Config) (s : Loop) (rd : ReadResult)
    (hP : c.PAGE_SIZE < 2 ^ 31) (hH : c.HARDBLKSIZE ≤ c.PAGE_SIZE)
    (hz : zones_intact c s.mem) (hret : rd.ret = (c.HARDBLKSIZE : Int))
    (href : ¬ agree (after_read c s.mem rd) 0 c.PAGE_SIZE c.HARDBLKSIZE)
    (hpoison : ¬ agree (after_read c s.mem rd) 0 (2 * c.PAGE_SIZE) c.HARDBLKSIZE) :
    ∃ n, cycle v c s rd =
        Outcome.next (toggle c (after_read c s.mem rd) s.skip_memset)
          [if s.skip_memset then Msg.unexpected_corruption else Msg.corruption_dumping_page,
            Msg.dump ((List.range n).map (after_read c s.mem rd))] ∧
      (toggle c (after_read c s.mem rd) s.skip_memset).skip_memset = !s.skip_memset ∧
      (agree (after_read c s.mem rd) c.HARDBLKSIZE (c.PAGE_SIZE + c.HARDBLKSIZE)
          (c.PAGE_SIZE - c.HARDBLKSIZE) → n = c.HARDBLKSIZE) ∧
      (¬ agree (after_read c s.mem rd) c.HARDBLKSIZE (c.PAGE_SIZE + c.HARDBLKSIZE)
          (c.PAGE_SIZE - c.HARDBLKSIZE) → n = c.PAGE_SIZE) ∧
      (c.HARDBLKSIZE = c.PAGE_SIZE → n = c.PAGE_SIZE) := by
  have hzw := after_read_zones_intact c hH s.mem rd hz
  have hp2 : ¬ agree (after_read c s.mem rd) 0 (c.PAGE_SIZE * 2) c.PAGE_SIZE := by
    rw [Nat.mul_comm]
    exact not_agree_mono _ _ _ _ _ hH hpoison
  have htail := tail_cmp_iff c hH (after_read c s.mem rd) hzw
  refine ⟨_, cycle_of_detect v c s rd _ hret (detect_dump v c _ _ href hp2), rfl, ?_, ?_, ?_⟩
  · intro h
    rw [if_pos (htail.2 h)]
    simp
  · intro h
    rw [if_neg (fun e => h (htail.1 e)), to_int32_small _ hP]
    simp
  · intro h
    have : agree (after_read c s.mem rd) c.HARDBLKSIZE (c.PAGE_SIZE + c.HARDBLKSIZE)
        (c.PAGE_SIZE - c.HARDBLKSIZE) := fun i hi => by omega
    rw [if_pos (htail.2 this)]
    simp [h]

/-- C4 at the sizes of the sources: the first pass of io_uring_swap, whose read
brings back 512 bytes of value 1 and leaves the rest of the page zero, dumps
exactly 512 bytes and does not end the process. -/
theorem unexpected_corruption_dump_witness :
    cycle .io_uring_swap source_config (main_start source_config (fun _ => 7)).loop
        ⟨512, 512, fun _ => 1⟩ =
      Outcome.next
        (toggle source_config
          (after_read source_config (main_start source_config (fun _ => 7)).loop.mem
            ⟨512, 512, fun _ => 1⟩) true)
        [Msg.unexpected_corruption,
          Msg.dump ((List.range 512).map
            (after_read source_config (main_start source_config (fun _ => 7)).loop.mem
              ⟨512, 512, fun _ => 1⟩))] := by
  obtain ⟨n, h, _, htail, _, _⟩ :=
    unexpected_corruption_dump .io_uring_swap source_config
      (main_start source_config (fun _ => 7)).loop ⟨512, 512, fun _ => 1⟩
      (by decide) (by decide) (init_region_zones_intact _ _) rfl
      (fun h => absurd (h 0 (by decide)) (by decide))
      (fun h => absurd (h 0 (by decide)) (by decide))
  have hn : n = 512 := htail (fun i hi => by
    have h1 : source_config.HARDBLKSIZE = 512 := rfl
    have h2 : source_config.PAGE_SIZE = 4096 := rfl
    rw [h1, h2] at hi ⊢
    rw [after_read_frame _ _ _ _ (by rw [h1]; omega),
      after_read_frame _ _ _ _ (by rw [h1]; omega)]
    have e1 := (init_region_bytes source_config (fun _ => 7)).1 (512 + i)
      (by rw [h2]; omega)
    have e2 := (init_region_bytes source_config (fun _ => 7)).1 (4096 + 512 + i)
      (by rw [h2]; omega)
    exact e1.trans e2.symm)
  rw [hn] at h
  exact h

/-- C5, as the code has it: with pages 1 and 2 intact, a pass whose read returned
`HARDBLKSIZE` and left a Working page whose first `HARDBLKSIZE` bytes differ from
Reference's and equal Poison's is reported as a corruption.  When the rest of the
page equals Reference's (so the whole page equals the Poison page) the pass prints
`memory corruption detected` and dumps nothing; io_uring_swap then ends with
status 255 and the two page_count reproducers flip the flag and carry on.  When the
rest of the page differs, the pass prints a header and a dump of `PAGE_SIZE` bytes,
flips the flag and carries on. -/
theorem poison_head_reported (v : Variant) (c : Config) (s : Loop) (rd : ReadResult)
    (hP : c.PAGE_SIZE < 2 ^ 31) (hH : c.HARDBLKSIZE ≤ c.PAGE_SIZE)
    (hz : zones_intact c s.mem) (hret : rd.ret = (c.HARDBLKSIZE : Int))
    (href : ¬ agree (after_read c s.mem rd) 0 c.PAGE_SIZE c.HARDBLKSIZE)
    (hpoison : agree (after_read c s.mem rd) 0 (2 * c.PAGE_SIZE) c.HARDBLKSIZE) :
    (agree (after_read c s.mem rd) c.HARDBLKSIZE (c.PAGE_SIZE + c.HARDBLKSIZE)
        (c.PAGE_SIZE - c.HARDBLKSIZE) →
      cycle v c s rd =
        match v with
        | .io_uring_swap => Outcome.exit 255 [Msg.corruption_detected]
        | .page_count_do_wp_page =>
          Outcome.next (toggle c (after_read c s.mem rd) s.skip_memset)
            [Msg.corruption_detected]
        | .page_count_do_wp_page_swap =>
          Outcome.next (toggle c (after_read c s.mem rd) s.skip_memset)
            [Msg.corruption_detected]) ∧
    (¬ agree (after_read c s.mem rd) c.HARDBLKSIZE (c.PAGE_SIZE + c.HARDBLKSIZE)
        (c.PAGE_SIZE - c.HARDBLKSIZE) →
      cycle v c s rd =
        Outcome.next (toggle c (after_read c s.mem rd) s.skip_memset)
          [if s.skip_memset then Msg.unexpected_corruption else Msg.corruption_dumping_page,
            Msg.dump ((List.range c.PAGE_SIZE).map (after_read c s.mem rd))]) :=
  cycle_poison_head v c s rd hP hH hz hret href hpoison

/-- C5 as stated fails: at the sizes of the sources, on the freshly set-up buffer, a
read that leaves `0xff` in the first 512 bytes of Working (equal to Poison's, different
from Reference's) makes page_count_do_wp_page-swap print `memory corruption detected`
and makes io_uring_swap print it and end with status 255. -/
theorem poison_head_counterexample :
    (¬ agree (after_read source_config (main_start source_config (fun _ => 7)).loop.mem
        ⟨512, 512, fun _ => 255⟩) 0 source_config.PAGE_SIZE source_config.HARDBLKSIZE) ∧
    agree (after_read source_config (main_start source_config (fun _ => 7)).loop.mem
        ⟨512, 512, fun _ => 255⟩) 0 (2 * source_config.PAGE_SIZE) source_config.HARDBLKSIZE ∧
    (cycle .page_count_do_wp_page_swap source_config
        (main_start source_config (fun _ => 7)).loop ⟨512, 512, fun _ => 255⟩).out
      = [Msg.corruption_detected] ∧
    (cycle .io_uring_swap source_config
        (main_start source_config (fun _ => 7)).loop ⟨512, 512, fun _ => 255⟩).out
      = [Msg.corruption_detected] ∧
    (cycle .io_uring_swap source_config
        (main_start source_config (fun _ => 7)).loop ⟨512, 512, fun _ => 255⟩).status
      = some 255 := by
  have hz : zones_intact source_config (main_start source_config (fun _ => 7)).loop.mem :=
    init_region_zones_intact _ _
  have hzw := after_read_zones_intact source_config (by decide) _ ⟨512, 512, fun _ => 255⟩ hz
  have href := head_differs_reference source_config (by decide) (by decide) _ hzw
    (show after_read source_config (main_start source_config (fun _ => 7)).loop.mem
      ⟨512, 512, fun _ => 255⟩ 0 ≠ 0 by decide)
  have hpoison := head_agree_poison source_config (by decide) _ hzw
    (fun i hi => after_read_head source_config _ ⟨512, 512, fun _ => 255⟩ i rfl hi)
  have htail := tail_agree_of_zero source_config (by decide) _ hzw (fun i h1 h2 => by
    rw [after_read_frame _ _ _ _ h1]
    exact (init_region_bytes source_config (fun _ => 7)).1 i
      (by have : source_config.PAGE_SIZE = 4096 := rfl
          omega))
  have h1 := (cycle_poison_head .page_count_do_wp_page_swap source_config _
    ⟨512, 512, fun _ => 255⟩ (by decide) (by decide) hz rfl href hpoison).1 htail
  have h2 := (cycle_poison_head .io_uring_swap source_config _
    ⟨512, 512, fun _ => 255⟩ (by decide) (by decide) hz rfl href hpoison).1 htail
  refine ⟨href, hpoison, ?_, ?_, ?_⟩
  · rw [h1]; rfl
  · rw [h2]; rfl
  · rw [h2]; rfl

/-- C5's corrected statement at the sizes of the sources, on a buffer whose byte 1000
was changed to 9 before the pass: the read leaves `0xff` in the first 512 bytes, the
rest of the page is not zero, and page_count_do_wp_page dumps the whole page. -/
theorem poison_head_reported_witness :
    cycle .page_count_do_wp_page source_config
        ⟨store (init_region source_config (fun _ => 7)) 1000 9, true⟩
        ⟨512, 512, fun _ => 255⟩ =
      Outcome.next
        (toggle source_config
          (after_read source_config (store (init_region source_config (fun _ => 7)) 1000 9)
            ⟨512, 512, fun _ => 255⟩) true)
        [Msg.unexpected_corruption,
          Msg.dump ((List.range 4096).map
            (after_read source_config (store (init_region source_config (fun _ => 7)) 1000 9)
              ⟨512, 512, fun _ => 255⟩))] := by
  have hz : zones_intact source_config (store (init_region source_config (fun _ => 7)) 1000 9) :=
    store_zones_intact source_config _ 1000 9 (by decide) (init_region_zones_intact _ _)
  have hzw := after_read_zones_intact source_config (by decide) _ ⟨512, 512, fun _ => 255⟩ hz
  exact (poison_head_reported .page_count_do_wp_page source_config
    ⟨store (init_region source_config (fun _ => 7)) 1000 9, true⟩ ⟨512, 512, fun _ => 255⟩
    (by decide) (by decide) hz rfl
    (head_differs_reference source_config (by decide) (by decide) _ hzw (by decide))
    (head_agree_poison source_config (by decide) _ hzw
      (fun i hi => after_read_head source_config _ ⟨512, 512, fun _ => 255⟩ i rfl hi))).2
    (tail_differs_of_nonzero source_config (by decide) _ hzw 1000 (by decide) (by decide)
      (by decide))

/-- C6, as the code has it: in the state in which `skip_memset` is `false`, with pages
1 and 2 intact, a pass whose read returns `HARDBLKSIZE` and leaves `0xff` in the first
`HARDBLKSIZE` bytes of Working does this.  When `mem[HARDBLKSIZE:PAGE_SIZE]` equals
that range of Reference, the page equals the Poison page: the pass prints
`memory corruption detected` and dumps nothing (io_uring_swap ends with status 255,
the page_count reproducers carry on).  When it does not, the pass prints
`memory corruption detected, dumping page` and a dump of `PAGE_SIZE` bytes, and
carries on. -/
theorem forced_anomaly (v : Variant) (c : Config) (s : Loop) (rd : ReadResult)
    (hP : c.PAGE_SIZE < 2 ^ 31) (hH : c.HARDBLKSIZE ≤ c.PAGE_SIZE) (h0 : 0 < c.HARDBLKSIZE)
    (hz : zones_intact c s.mem) (hflag : s.skip_memset = false)
    (hret : rd.ret = (c.HARDBLKSIZE : Int)) (hgot : rd.got = c.HARDBLKSIZE)
    (hdata : ∀ i, i < c.HARDBLKSIZE → rd.data i = 255) :
    (agree (after_read c s.mem rd) c.HARDBLKSIZE (c.PAGE_SIZE + c.HARDBLKSIZE)
        (c.PAGE_SIZE - c.HARDBLKSIZE) →
      cycle v c s rd =
        match v with
        | .io_uring_swap => Outcome.exit 255 [Msg.corruption_detected]
        | .page_count_do_wp_page =>
          Outcome.next (toggle c (after_read c s.mem rd) false) [Msg.corruption_detected]
        | .page_count_do_wp_page_swap =>
          Outcome.next (toggle c (after_read c s.mem rd) false) [Msg.corruption_detected]) ∧
    (¬ agree (after_read c s.mem rd) c.HARDBLKSIZE (c.PAGE_SIZE + c.HARDBLKSIZE)
        (c.PAGE_SIZE - c.HARDBLKSIZE) →
      cycle v c s rd =
        Outcome.next (toggle c (after_read c s.mem rd) false)
          [Msg.corruption_dumping_page,
            Msg.dump ((List.range c.PAGE_SIZE).map (after_read c s.mem rd))]) := by
  have hzw := after_read_zones_intact c hH s.mem rd hz
  have hhead : ∀ i, i < c.HARDBLKSIZE → after_read c s.mem rd i = 255 := fun i hi => by
    rw [after_read_head c _ _ i hgot hi, hdata i hi]
  have href := head_differs_reference c hH h0 _ hzw
    (by rw [hhead 0 h0]; decide)
  have hpoison := head_agree_poison c hH _ hzw hhead
  have h := cycle_poison_head v c s rd hP hH hz hret href hpoison
  rw [hflag] at h
  exact h

/-- C6 as stated fails: at the sizes of the sources, in the state the first quiet pass
leaves (flag `false`, sentinel written over Working's first 512 bytes), a read that
deposits 512 bytes of `0xff` leaves a page whose tail equals Reference's tail, and
page_count_do_wp_page prints `memory corruption detected` only: nothing is dumped. -/
theorem forced_anomaly_counterexample :
    agree (after_read source_config
        (memset (init_region source_config (fun _ => 7)) 0 0xff 512)
        ⟨512, 512, fun _ => 255⟩)
      source_config.HARDBLKSIZE (source_config.PAGE_SIZE + source_config.HARDBLKSIZE)
      (source_config.PAGE_SIZE - source_config.HARDBLKSIZE) ∧
    (cycle .page_count_do_wp_page source_config
        ⟨memset (init_region source_config (fun _ => 7)) 0 0xff 512, false⟩
        ⟨512, 512, fun _ => 255⟩).out = [Msg.corruption_detected] := by
  have hz : zones_intact source_config
      (memset (init_region source_config (fun _ => 7)) 0 0xff 512) :=
    memset_zones_intact source_config (by decide) _ (init_region_zones_intact _ _)
  have hzw := after_read_zones_intact source_config (by decide) _ ⟨512, 512, fun _ => 255⟩ hz
  have htail := tail_agree_of_zero source_config (by decide) _ hzw (fun i h1 h2 => by
    have e1 : source_config.PAGE_SIZE = 4096 := rfl
    have e2 : source_config.HARDBLKSIZE = 512 := rfl
    rw [after_read_frame _ _ _ _ h1]
    have : ¬ (0 ≤ i ∧ i < 0 + 512) := by omega
    simp only [memset, if_neg this]
    exact (init_region_bytes source_config (fun _ => 7)).1 i (by omega))
  have href := head_differs_reference source_config (by decide) (by decide) _ hzw
    (show after_read source_config
      (memset (init_region source_config (fun _ => 7)) 0 0xff 512)
      ⟨512, 512, fun _ => 255⟩ 0 ≠ 0 by decide)
  have hpoison := head_agree_poison source_config (by decide) _ hzw
    (fun i hi => after_read_head source_config _ ⟨512, 512, fun _ => 255⟩ i rfl hi)
  have h := (cycle_poison_head .page_count_do_wp_page source_config
    ⟨memset (init_region source_config (fun _ => 7)) 0 0xff 512, false⟩
    ⟨512, 512, fun _ => 255⟩ (by decide) (by decide) hz rfl href hpoison).1 htail
  exact ⟨htail, by rw [h]; rfl⟩

/-- C6's corrected statement at the sizes of the sources, in the state the first quiet
pass leaves but with byte 2000 of Working changed to 1: the tail differs from
Reference's, and page_count_do_wp_page-swap dumps the whole page. -/
theorem forced_anomaly_witness :
    cycle .page_count_do_wp_page_swap source_config
        ⟨store (memset (init_region source_config (fun _ => 7)) 0 0xff 512) 2000 1, false⟩
        ⟨512, 512, fun _ => 255⟩ =
      Outcome.next
        (toggle source_config
          (after_read source_config
            (store (memset (init_region source_config (fun _ => 7)) 0 0xff 512) 2000 1)
            ⟨512, 512, fun _ => 255⟩) false)
        [Msg.corruption_dumping_page,
          Msg.dump ((List.range 4096).map
            (after_read source_config
              (store (memset (init_region source_config (fun _ => 7)) 0 0xff 512) 2000 1)
              ⟨512, 512, fun _ => 255⟩))] := by
  have hz : zones_intact source_config
      (store (memset (init_region source_config (fun _ => 7)) 0 0xff 512) 2000 1) :=
    store_zones_intact source_config _ 2000 1 (by decide)
      (memset_zones_intact source_config (by decide) _ (init_region_zones_intact _ _))
  have hzw := after_read_zones_intact source_config (by decide) _ ⟨512, 512, fun _ => 255⟩ hz
  exact (forced_anomaly .page_count_do_wp_page_swap source_config
    ⟨store (memset (init_region source_config (fun _ => 7)) 0 0xff 512) 2000 1, false⟩
    ⟨512, 512, fun _ => 255⟩ (by decide) (by decide) (by decide) hz rfl rfl rfl
    (fun _ _ => rfl)).2
    (tail_differs_of_nonzero source_config (by decide) _ hzw 2000 (by decide) (by decide)
      (by decide))

/-- C7: with no stressor step in between and reads that copy the first `HARDBLKSIZE`
bytes of the file written once from the freshly set-up Working page, the first `N`
passes of the loop print nothing and do not end the process, for every `N` and every
one of the three reproducers. -/
theorem quiet_baseline (v : Variant) (c : Config) (hH : c.HARDBLKSIZE ≤ c.PAGE_SIZE)
    (prior : Mem) (N : Nat) :
    (run v c (main_start c prior).loop
      (List.replicate N (quiet_read v c (main_start c prior).file))).status = none ∧
    (run v c (main_start c prior).loop
      (List.replicate N (quiet_read v c (main_start c prior).file))).out = [] :=
  quiet_run v c hH prior N _ (init_region_zones_intact c prior)

/-- C7 at the sizes of the sources: 10000 quiet passes of io_uring_swap. -/
theorem quiet_baseline_witness :
    (run .io_uring_swap source_config (main_start source_config (fun _ => 7)).loop
      (List.replicate 10000
        (quiet_read .io_uring_swap source_config
          (main_start source_config (fun _ => 7)).file))).status = none ∧
    (run .io_uring_swap source_config (main_start source_config (fun _ => 7)).loop
      (List.replicate 10000
        (quiet_read .io_uring_swap source_config
          (main_start source_config (fun _ => 7)).file))).out = [] :=
  quiet_baseline .io_uring_swap source_config (by decide) (fun _ => 7) 10000

/-- C8: a read whose result is not `HARDBLKSIZE` ends the process in that pass, with
status 255 in io_uring_swap (`exit(-1)`) and 1 in the page_count reproducers
(`exit(1)`); only the read-failure message is printed, and the reads that would have
followed are never made. -/
theorem bad_read_fatal (v : Variant) (c : Config) (s : Loop) (rd : ReadResult)
    (rds : List ReadResult) (h : rd.ret ≠ (c.HARDBLKSIZE : Int)) :
    cycle v c s rd =
      Outcome.exit (match v with
        | .io_uring_swap => 255
        | .page_count_do_wp_page => 1
        | .page_count_do_wp_page_swap => 1) [Msg.read_failed] ∧
    (cycle v c s rd).status ≠ some 0 ∧
    (cycle v c s rd).state = none ∧
    run v c s (rd :: rds) = cycle v c s rd := by
  have hc := cycle_bad_read v c s rd h
  refine ⟨?_, ?_, ?_, ?_⟩
  · rw [hc]; cases v <;> rfl
  · rw [hc]; cases v <;> simp [Outcome.status, read_failure_code, exit_status]
  · rw [hc]; rfl
  · rw [hc]; exact run_cons_exit v c s rd rds _ _ hc

/-- C8 at the sizes of the sources: a short read of 100 bytes in the first pass of
io_uring_swap ends the process with status 255, whatever reads would follow. -/
theorem bad_read_fatal_witness :
    ((100 : Int) ≠ (source_config.HARDBLKSIZE : Int)) ∧
    run .io_uring_swap source_config (main_start source_config (fun _ => 7)).loop
        [⟨100, 100, fun _ => 0⟩, ⟨512, 512, fun _ => 0⟩] =
      Outcome.exit 255 [Msg.read_failed] := by
  have h := bad_read_fatal .io_uring_swap source_config
    (main_start source_config (fun _ => 7)).loop ⟨100, 100, fun _ => 0⟩
    [⟨512, 512, fun _ => 0⟩] (by decide)
  exact ⟨by decide, h.2.2.2.trans h.1⟩

/-- C9: with liburing reporting a failure of `io_uring_register_buffers` and of
`io_uring_unregister_buffers` by a negative code and their success by 0, whenever a
step of `io_uring_read_fixed` fails (a negative code, or no submission entry) the
value it returns differs from `HARDBLKSIZE`, and the pass of `main` ends the process
with status 255 after printing only the read-failure message; when no step fails it
returns `cqe->res` and has made the calls in the order register, get_sqe,
prep_read_fixed, submit, wait_cqe, cqe_seen, unregister. -/
theorem pin_cycle_fail_fast (c : Config) (h0 : 0 < c.HARDBLKSIZE) (s : Loop)
    (o : UringOutcome) (data : Nat → Byte)
    (hreg : o.register_buffers ≤ 0) (hunreg : o.unregister_buffers ≤ 0) :
    (o.step_fails →
      (io_uring_read_fixed o).ret ≠ (c.HARDBLKSIZE : Int) ∧
      cycle .io_uring_swap c s (uring_result o data) =
        Outcome.exit 255 [Msg.read_failed]) ∧
    (¬ o.step_fails →
      (io_uring_read_fixed o).ret = o.cqe_res ∧
      (io_uring_read_fixed o).calls =
        [.register_buffers, .get_sqe, .prep_read_fixed, .submit, .wait_cqe, .cqe_seen,
          .unregister_buffers]) := by
  have hpos : (0 : Int) < (c.HARDBLKSIZE : Int) := by exact_mod_cast h0
  constructor
  · intro hf
    have hne : (io_uring_read_fixed o).ret ≠ (c.HARDBLKSIZE : Int) := by
      unfold io_uring_read_fixed
      by_cases h1 : o.register_buffers ≠ 0
      · simp only [if_pos h1]; omega
      · have h1z : o.register_buffers = 0 := not_not.mp h1
        simp only [if_neg h1]
        cases hs : o.get_sqe with
        | false => simp; omega
        | true =>
          simp only [Bool.not_true, Bool.false_eq_true, if_false]
          by_cases h2 : o.submit < 0
          · simp only [if_pos h2]; omega
          · simp only [if_neg h2]
            by_cases h3 : o.wait_cqe < 0
            · simp only [if_pos h3]; omega
            · simp only [if_neg h3]
              by_cases h4 : o.unregister_buffers ≠ 0
              · simp only [if_pos h4]; omega
              · exfalso
                have h4z : o.unregister_buffers = 0 := not_not.mp h4
                rcases hf with hf | hf | hf | hf | hf
                · omega
                · rw [hs] at hf; exact Bool.noConfusion hf
                · exact h2 hf
                · exact h3 hf
                · omega
    refine ⟨hne, ?_⟩
    exact cycle_bad_read .io_uring_swap c s (uring_result o data) hne
  · intro hok
    have h1 : ¬ o.register_buffers ≠ 0 := by
      intro h; exact hok (Or.inl (by omega))
    have hs : o.get_sqe = true := by
      cases hq : o.get_sqe with
      | true => rfl
      | false => exact absurd (Or.inr (Or.inl hq)) hok
    have h2 : ¬ o.submit < 0 := fun h => hok (Or.inr (Or.inr (Or.inl h)))
    have h3 : ¬ o.wait_cqe < 0 := fun h => hok (Or.inr (Or.inr (Or.inr (Or.inl h))))
    have h4 : ¬ o.unregister_buffers ≠ 0 := by
      intro h; exact hok (Or.inr (Or.inr (Or.inr (Or.inr (by omega)))))
    simp [io_uring_read_fixed, h1, hs, h2, h3, h4]

/-- C9 at the sizes of the sources: the read completes with 512 bytes but
`io_uring_unregister_buffers` fails with -22; `io_uring_read_fixed` returns -22 and
the first pass of `main` ends the process with status 255. -/
theorem pin_cycle_fail_fast_witness :
    (⟨0, true, 1, 0, 512, -22⟩ : UringOutcome).step_fails ∧
    (io_uring_read_fixed ⟨0, true, 1, 0, 512, -22⟩).ret ≠ (source_config.HARDBLKSIZE : Int) ∧
    cycle .io_uring_swap source_config (main_start source_config (fun _ => 7)).loop
        (uring_result ⟨0, true, 1, 0, 512, -22⟩ (fun _ => 0)) =
      Outcome.exit 255 [Msg.read_failed] :=
  ⟨by decide,
    (pin_cycle_fail_fast source_config (by decide)
      (main_start source_config (fun _ => 7)).loop ⟨0, true, 1, 0, 512, -22⟩ (fun _ => 0)
      (by decide) (by decide)).1 (by decide)⟩

/-- C10, what the code does at the failing input: at the sizes of the sources, when
the map ioctl succeeds and the unmap ioctl returns -1 without storing anything in the
`size` field, `dma_unmap` prints `Failed to DMA unmap` and returns 4096, the test
`dma_unmap(...) != PAGE_SIZE` of `main` is false, and the loop goes on: three such
passes in a row end with the process still running and `count` at 3.  A failing map
ioctl does end the process with status 255. -/
theorem dma_unmap_failure_not_fatal :
    dma_unmap (to_int32 source_config.PAGE_SIZE) ⟨-1, none⟩
      = (4096, [VfioMsg.failed_to_dma_unmap]) ∧
    (vfio_cycle source_config ⟨init_region source_config (fun _ => 7), 0⟩ 0
      ⟨-1, none⟩).status = none ∧
    (vfio_cycle source_config ⟨init_region source_config (fun _ => 7), 0⟩ 0
      ⟨-1, none⟩).out = [VfioMsg.failed_to_dma_unmap] ∧
    (vfio_run source_config ⟨init_region source_config (fun _ => 7), 0⟩
      [(0, ⟨-1, none⟩), (0, ⟨-1, none⟩), (0, ⟨-1, none⟩)]).status = none ∧
    (vfio_run source_config ⟨init_region source_config (fun _ => 7), 0⟩
      [(0, ⟨-1, none⟩), (0, ⟨-1, none⟩), (0, ⟨-1, none⟩)]).state.map VfioLoop.count
        = some 3 ∧
    (vfio_cycle source_config ⟨init_region source_config (fun _ => 7), 0⟩ (-1)
      ⟨0, some 4096⟩).status = some 255 := by
  refine ⟨by decide, by decide, by decide, by decide, by decide, by decide⟩

/-- What the swap check does when no `unsigned long` operation wraps: shared by the
statements about the check. -/
theorem preflight_no_wrap (mi : Meminfo) (hm : mi.matched = 4)
    (hs : mi.swap_free ≤ mi.swap_total)
    (h1 : mi.mem_total + 1048576 < 2 ^ 64) (h2 : mi.mem_avail ≤ mi.mem_total + 1048576) :
    (0 < mi.swap_free ∧ mi.mem_total + 1048576 ≤ mi.swap_free + mi.mem_avail →
      preflight mi = Preflight.proceed ((mi.mem_total + 1048576) * 1024 % 2 ^ 64)) ∧
    (¬ (0 < mi.swap_free ∧ mi.mem_total + 1048576 ≤ mi.swap_free + mi.mem_avail) →
      preflight mi = Preflight.not_enough_swap) := by
  have hk : (mi.mem_total + 1024 * 1024) % 2 ^ 64 = mi.mem_total + 1048576 :=
    Nat.mod_eq_of_lt h1
  have hsub : (mi.mem_total + 1048576 + 2 ^ 64 - mi.mem_avail) % 2 ^ 64
      = mi.mem_total + 1048576 - mi.mem_avail := by
    have e : mi.mem_total + 1048576 + 2 ^ 64 - mi.mem_avail
        = (mi.mem_total + 1048576 - mi.mem_avail) + 2 ^ 64 := by omega
    rw [e, Nat.add_mod_right]
    exact Nat.mod_eq_of_lt (by omega)
  have hfirst : ¬ (mi.matched ≠ 4 ∨ mi.swap_free > mi.swap_total) := by
    intro h
    rcases h with h | h
    · exact h hm
    · omega
  constructor
  · intro hc
    have hsecond : ¬ (mi.swap_total = 0 ∨ mi.swap_free = 0 ∨
        mi.swap_free < mi.mem_total + 1048576 - mi.mem_avail) := by omega
    simp only [preflight, hk, hsub, if_neg hfirst, if_neg hsecond]
  · intro hc
    have hsecond : (mi.swap_total = 0 ∨ mi.swap_free = 0 ∨
        mi.swap_free < mi.mem_total + 1048576 - mi.mem_avail) := by omega
    simp only [preflight, hk, hsub, if_neg hfirst, if_pos hsecond]

/-- C11, within the range where `unsigned long` arithmetic does not wrap: with all
four fields found, `swap_free <= swap_total`, `mem_total + 1048576 < 2^64` and
`mem_avail <= mem_total + 1048576`, the check passes exactly when `swap_free > 0` and
`swap_free + mem_avail >= mem_total + 1048576`; otherwise it prints `not enough swap`
and ends the process with status 1; and when it passes and
`(mem_total + 1048576) * 1024 < 2^64`, the size handed on is that product. -/
theorem swap_preflight (mi : Meminfo) (hm : mi.matched = 4)
    (hs : mi.swap_free ≤ mi.swap_total)
    (h1 : mi.mem_total + 1048576 < 2 ^ 64) (h2 : mi.mem_avail ≤ mi.mem_total + 1048576) :
    ((preflight mi).status = none ↔
      (0 < mi.swap_free ∧ mi.mem_total + 1048576 ≤ mi.swap_free + mi.mem_avail)) ∧
    ((preflight mi).status ≠ none →
      preflight mi = Preflight.not_enough_swap ∧ (preflight mi).status = some 1) ∧
    ((preflight mi).status = none → (mi.mem_total + 1048576) * 1024 < 2 ^ 64 →
      preflight mi = Preflight.proceed ((mi.mem_total + 1048576) * 1024)) := by
  obtain ⟨hyes, hno⟩ := preflight_no_wrap mi hm hs h1 h2
  by_cases hc : 0 < mi.swap_free ∧ mi.mem_total + 1048576 ≤ mi.swap_free + mi.mem_avail
  · have e := hyes hc
    refine ⟨?_, ?_, ?_⟩
    · rw [e]; exact ⟨fun _ => hc, fun _ => rfl⟩
    · intro h; rw [e] at h; exact absurd rfl h
    · intro _ hp
      rw [e, Nat.mod_eq_of_lt hp]
  · have e := hno hc
    refine ⟨?_, ?_, ?_⟩
    · rw [e]
      constructor
      · intro h; exact absurd h (by decide)
      · intro h; exact absurd h hc
    · intro _; rw [e]; exact ⟨rfl, rfl⟩
    · intro h; rw [e] at h; exact absurd h (by decide)

/-- C11 as stated fails where `unsigned long` arithmetic wraps.  With 2 GiB of memory,
4 GiB reported available and 1 GiB of free swap, `size_kb - mem_avail` wraps to a huge
value and the check prints `not enough swap`, although
`swap_free + mem_avail >= mem_total + 1048576`.  With `mem_total = 2^64 - 2^20` the sum
`size_kb` wraps to 0 and the check passes although the inequality fails.  With
`mem_total = 2^54` the check passes and the size handed on is `2^30`, not
`(mem_total + 1048576) * 1024`. -/
theorem swap_preflight_counterexample :
    ((⟨2097152, 4194304, 1048576, 1048576, 4⟩ : Meminfo).in_range ∧
      (0 < 1048576 ∧ 2097152 + 1048576 ≤ 1048576 + 4194304) ∧
      preflight ⟨2097152, 4194304, 1048576, 1048576, 4⟩ = Preflight.not_enough_swap) ∧
    ((⟨2 ^ 64 - 2 ^ 20, 0, 1, 1, 4⟩ : Meminfo).in_range ∧
      ¬ (2 ^ 64 - 2 ^ 20 + 1048576 ≤ 1 + 0) ∧
      preflight ⟨2 ^ 64 - 2 ^ 20, 0, 1, 1, 4⟩ = Preflight.proceed 0) ∧
    ((⟨2 ^ 54, 2 ^ 54, 2 ^ 20, 2 ^ 20, 4⟩ : Meminfo).in_range ∧
      preflight ⟨2 ^ 54, 2 ^ 54, 2 ^ 20, 2 ^ 20, 4⟩ = Preflight.proceed (2 ^ 30) ∧
      (2 ^ 54 + 1048576) * 1024 ≠ 2 ^ 30) := by
  refine ⟨⟨by decide, by decide, by decide⟩, ⟨by decide, by decide, by decide⟩,
    ⟨by decide, by decide, by decide⟩⟩

/-- C11 within range, on a 2 GiB machine with 1.5 GiB available and 2 GiB of free
swap: the check passes and hands on 3 GiB. -/
theorem swap_preflight_witness :
    (preflight ⟨2097152, 1572864, 2097152, 2097152, 4⟩).status = none ∧
    preflight ⟨2097152, 1572864, 2097152, 2097152, 4⟩ = Preflight.proceed 3221225472 :=
  ⟨by decide,
    (swap_preflight ⟨2097152, 1572864, 2097152, 2097152, 4⟩ rfl (by decide) (by decide)
      (by decide)).2.2 (by decide) (by decide)⟩

theorem writer_frame (v : Variant) (c : Config) (m : Mem) (i : Nat)
    (h : i ≠ c.PAGE_SIZE - 1) : writer v c m i = m i := by
  cases v <;> simp [writer, store, h]

theorem writer_last_byte (v : Variant) (c : Config) (m : Mem)
    (h : m (c.PAGE_SIZE - 1) = 0) : writer v c m (c.PAGE_SIZE - 1) = 0 := by
  cases v <;> simp [writer, store, h]

theorem toggle_last_byte (c : Config) (hH : c.HARDBLKSIZE < c.PAGE_SIZE) (m : Mem)
    (skip : Bool) (h : m (c.PAGE_SIZE - 1) = 0) :
    (toggle c m skip).mem (c.PAGE_SIZE - 1) = 0 := by
  cases skip
  · exact h
  · have : ¬ (0 ≤ c.PAGE_SIZE - 1 ∧ c.PAGE_SIZE - 1 < 0 + c.HARDBLKSIZE) := by omega
    simp only [toggle, Bool.not_true, Bool.not_false, if_true, memset, if_neg this]
    exact h

theorem op_apply_last_byte (c : Config) (hH : c.HARDBLKSIZE < c.PAGE_SIZE)
    (op : HarnessOp) (m : Mem) (h : m (c.PAGE_SIZE - 1) = 0) :
    op.apply c m (c.PAGE_SIZE - 1) = 0 := by
  cases op with
  | writer v => exact writer_last_byte v c m h
  | read rd =>
    show after_read c m rd (c.PAGE_SIZE - 1) = 0
    rw [after_read_frame c m rd _ (by omega)]; exact h
  | classify v b => exact h
  | compensate =>
    have : ¬ (0 ≤ c.PAGE_SIZE - 1 ∧ c.PAGE_SIZE - 1 < 0 + c.HARDBLKSIZE) := by omega
    simp only [HarnessOp.apply, memset, if_neg this]
    exact h

theorem apply_ops_last_byte (c : Config) (hH : c.HARDBLKSIZE < c.PAGE_SIZE)
    (ops : List HarnessOp) : ∀ (m : Mem), m (c.PAGE_SIZE - 1) = 0 →
    apply_ops c ops m (c.PAGE_SIZE - 1) = 0 := by
  induction ops with
  | nil => intro m h; exact h
  | cons op ops ih =>
    intro m h
    have : apply_ops c (op :: ops) m = apply_ops c ops (op.apply c m) := rfl
    rw [this]
    exact ih _ (op_apply_last_byte c hH op m h)

theorem run_last_byte (v : Variant) (c : Config) (hH : c.HARDBLKSIZE < c.PAGE_SIZE)
    (rds : List ReadResult) : ∀ (s s1 : Loop), s.mem (c.PAGE_SIZE - 1) = 0 →
    (run v c s rds).state = some s1 → s1.mem (c.PAGE_SIZE - 1) = 0 := by
  induction rds with
  | nil =>
    intro s s1 hz h
    have : s = s1 := by simpa [run, Outcome.state] using h
    rw [← this]; exact hz
  | cons rd rds ih =>
    intro s s1 hz h
    cases hc : cycle v c s rd with
    | exit status out =>
      rw [run_cons_exit v c s rd rds status out hc] at h
      simp [Outcome.state] at h
    | next s2 out =>
      obtain ⟨out1, hn⟩ := cycle_next v c s rd (by rw [hc]; rfl)
      rw [(run_cons_next v c s _ rd rds out1 hn).1] at h
      refine ih _ s1 (toggle_last_byte c hH _ s.skip_memset ?_) h
      rw [after_read_frame c s.mem rd _ (by omega)]; exact hz

theorem writer_noop_of_last_byte (v : Variant) (c : Config) (m : Mem)
    (h : m (c.PAGE_SIZE - 1) = 0) : writer v c m = m := by
  funext i
  by_cases hi : i = c.PAGE_SIZE - 1
  · rw [hi, writer_last_byte v c m h, h]
  · exact writer_frame v c m i hi

/-- C12: one iteration of the writer thread of any of the three reproducers changes
no byte other than `mem[PAGE_SIZE-1]`, and in every buffer state reached from the
set-up through reads into offset 0, compensating writes, classification steps and
earlier writer iterations, and in every state the driver loop reaches, it leaves the
whole buffer as it was; this includes the writer of page_count_do_wp_page, which
stores 0, because `mem[PAGE_SIZE-1]` is 0 in all those states. -/
theorem writer_is_noop (v : Variant) (c : Config) (hH : c.HARDBLKSIZE < c.PAGE_SIZE)
    (prior : Mem) :
    (∀ (m : Mem) (i : Nat), i ≠ c.PAGE_SIZE - 1 → writer v c m i = m i) ∧
    (∀ ops : List HarnessOp,
      writer v c (apply_ops c ops (init_region c prior))
        = apply_ops c ops (init_region c prior)) ∧
    (∀ (w : Variant) (rds : List ReadResult) (s : Loop),
      (run w c (main_start c prior).loop rds).state = some s →
        writer v c s.mem = s.mem) := by
  have h0 : init_region c prior (c.PAGE_SIZE - 1) = 0 :=
    (init_region_bytes c prior).1 _ (by omega)
  refine ⟨fun m i hi => writer_frame v c m i hi, fun ops => ?_, fun w rds s hs => ?_⟩
  · exact writer_noop_of_last_byte v c _ (apply_ops_last_byte c hH ops _ h0)
  · exact writer_noop_of_last_byte v c _
      (run_last_byte w c hH rds (main_start c prior).loop s h0 hs)

/-- C12 at the sizes of the sources: after a read of 512 bytes of `0xff`, a
compensating write and an earlier writer iteration, the writer of
page_count_do_wp_page (the one that stores 0) leaves the buffer unchanged. -/
theorem writer_is_noop_witness :
    writer .page_count_do_wp_page source_config
        (apply_ops source_config
          [.read ⟨512, 512, fun _ => 255⟩, .compensate, .writer .io_uring_swap]
          (init_region source_config (fun _ => 7)))
      = apply_ops source_config
          [.read ⟨512, 512, fun _ => 255⟩, .compensate, .writer .io_uring_swap]
          (init_region source_config (fun _ => 7)) :=
  (writer_is_noop .page_count_do_wp_page source_config (by decide) (fun _ => 7)).2.1 _

theorem cycle_eq_of_status (v : Variant) (c : Config) (s : Loop) (rd : ReadResult)
    (h : (cycle v c s rd).status = none) :
    cycle v c s rd =
      Outcome.next (toggle c (after_read c s.mem rd) s.skip_memset)
        (detect v c (after_read c s.mem rd) s.skip_memset).1 := by
  unfold cycle at h ⊢
  by_cases hr : rd.ret ≠ (c.HARDBLKSIZE : Int)
  · simp [hr, Outcome.status] at h
  · simp only [hr, if_false] at h ⊢
    rcases hd : detect v c (after_read c s.mem rd) s.skip_memset with ⟨out, code⟩
    rw [hd] at h
    cases code with
    | some code => simp [Outcome.status] at h
    | none => rfl

theorem status_none_of_state (o : Outcome) (s : Loop) (h : o.state = some s) :
    o.status = none := by
  cases o with
  | next s1 out => rfl
  | exit status out => simp [Outcome.state] at h

theorem run_snoc (v : Variant) (c : Config) (rd : ReadResult) (xs : List ReadResult) :
    ∀ (s s1 : Loop), (run v c s xs).state = some s1 →
      (run v c s (xs ++ [rd])).state = (cycle v c s1 rd).state := by
  induction xs with
  | nil =>
    intro s s1 h
    have hs : s = s1 := by simpa [run, Outcome.state] using h
    rw [← hs, List.nil_append]
    cases hc : cycle v c s rd with
    | exit status out => rw [run_cons_exit v c s rd [] status out hc]
    | next s2 out =>
      rw [(run_cons_next v c s s2 rd [] out hc).1]
      rfl
  | cons x xs ih =>
    intro s s1 h
    cases hc : cycle v c s x with
    | exit status out =>
      rw [run_cons_exit v c s x xs status out hc] at h
      simp [Outcome.state] at h
    | next s2 out =>
      rw [(run_cons_next v c s s2 x xs out hc).1] at h
      rw [List.cons_append, (run_cons_next v c s s2 x (xs ++ [rd]) out hc).1]
      exact ih s2 s1 h

theorem run_prefix_state (v : Variant) (c : Config) (rds : List ReadResult) (s : Loop)
    (h : (run v c s rds).status = none) (k : Nat) (hk : k ≤ rds.length) :
    ∃ s1, (run v c s (rds.take k)).state = some s1 ∧
      s1.skip_memset = (if k % 2 = 0 then s.skip_memset else !s.skip_memset) := by
  have hf := run_flag v c rds s h k hk
  cases hs : (run v c s (rds.take k)).state with
  | none => rw [hs] at hf; simp at hf
  | some s1 =>
    rw [hs] at hf
    exact ⟨s1, rfl, by simpa using hf⟩

theorem toggle_eq (c : Config) (m : Mem) (skip : Bool) :
    toggle c m skip =
      ⟨if skip then memset m 0 0xff c.HARDBLKSIZE else m, !skip⟩ := by
  cases skip <;> rfl

/-- C14: the three reproducers print the same messages in every pass, and the two
page_count reproducers behave identically in every pass.  When the read returned
`HARDBLKSIZE`: if the first `HARDBLKSIZE` bytes of Working differ from Reference's and
the whole Working page equals the Poison page, all three print
`memory corruption detected`, io_uring_swap ends the process with status 255 and the
page_count reproducers flip the flag and carry on; in every other case the pass of
any reproducer is the pass of page_count_do_wp_page and does not end the process
(so the dump branch never does). -/
theorem halt_policy (v : Variant) (c : Config) (s : Loop) (rd : ReadResult) :
    (cycle v c s rd).out = (cycle .page_count_do_wp_page c s rd).out ∧
    cycle .page_count_do_wp_page_swap c s rd = cycle .page_count_do_wp_page c s rd ∧
    (rd.ret = (c.HARDBLKSIZE : Int) →
      (¬ agree (after_read c s.mem rd) 0 c.PAGE_SIZE c.HARDBLKSIZE ∧
          agree (after_read c s.mem rd) 0 (c.PAGE_SIZE * 2) c.PAGE_SIZE) →
      cycle .io_uring_swap c s rd = Outcome.exit 255 [Msg.corruption_detected] ∧
      cycle .page_count_do_wp_page c s rd =
        Outcome.next (toggle c (after_read c s.mem rd) s.skip_memset)
          [Msg.corruption_detected] ∧
      cycle .page_count_do_wp_page_swap c s rd =
        Outcome.next (toggle c (after_read c s.mem rd) s.skip_memset)
          [Msg.corruption_detected]) ∧
    (rd.ret = (c.HARDBLKSIZE : Int) →
      ¬ (¬ agree (after_read c s.mem rd) 0 c.PAGE_SIZE c.HARDBLKSIZE ∧
          agree (after_read c s.mem rd) 0 (c.PAGE_SIZE * 2) c.PAGE_SIZE) →
      cycle v c s rd = cycle .page_count_do_wp_page c s rd ∧
      (cycle v c s rd).status = none) := by
  refine ⟨?_, ?_, ?_, ?_⟩
  · by_cases hr : rd.ret ≠ (c.HARDBLKSIZE : Int)
    · rw [cycle_bad_read v c s rd hr, cycle_bad_read _ c s rd hr]; rfl
    · have hret : rd.ret = (c.HARDBLKSIZE : Int) := not_not.mp hr
      by_cases h1 : agree (after_read c s.mem rd) 0 c.PAGE_SIZE c.HARDBLKSIZE
      · rw [cycle_of_detect v c s rd _ hret (detect_match v c _ _ h1),
          cycle_of_detect _ c s rd _ hret (detect_match _ c _ _ h1)]
      · by_cases h2 : agree (after_read c s.mem rd) 0 (c.PAGE_SIZE * 2) c.PAGE_SIZE
        · rw [cycle_of_detect _ c s rd _ hret
            (detect_poison_page .page_count_do_wp_page c _ _ h1 h2)]
          cases v
          · rw [cycle_of_detect_exit _ c s rd _ _ hret
              (detect_poison_page .io_uring_swap c _ _ h1 h2)]
            rfl
          · rw [cycle_of_detect _ c s rd _ hret
              (detect_poison_page .page_count_do_wp_page c _ _ h1 h2)]
          · rw [cycle_of_detect _ c s rd _ hret
              (detect_poison_page .page_count_do_wp_page_swap c _ _ h1 h2)]
        · rw [cycle_of_detect v c s rd _ hret (detect_dump v c _ _ h1 h2),
            cycle_of_detect _ c s rd _ hret (detect_dump _ c _ _ h1 h2)]
  · rfl
  · intro hret hp
    exact ⟨cycle_of_detect_exit _ c s rd _ _ hret
        (detect_poison_page .io_uring_swap c _ _ hp.1 hp.2),
      cycle_of_detect _ c s rd _ hret
        (detect_poison_page .page_count_do_wp_page c _ _ hp.1 hp.2),
      cycle_of_detect _ c s rd _ hret
        (detect_poison_page .page_count_do_wp_page_swap c _ _ hp.1 hp.2)⟩
  · intro hret hp
    by_cases h1 : agree (after_read c s.mem rd) 0 c.PAGE_SIZE c.HARDBLKSIZE
    · rw [cycle_of_detect v c s rd _ hret (detect_match v c _ _ h1),
        cycle_of_detect _ c s rd _ hret (detect_match _ c _ _ h1)]
      exact ⟨rfl, rfl⟩
    · have h2 : ¬ agree (after_read c s.mem rd) 0 (c.PAGE_SIZE * 2) c.PAGE_SIZE :=
        fun h2 => hp ⟨h1, h2⟩
      rw [cycle_of_detect v c s rd _ hret (detect_dump v c _ _ h1 h2),
        cycle_of_detect _ c s rd _ hret (detect_dump _ c _ _ h1 h2)]
      exact ⟨rfl, rfl⟩

/-- C14 at the sizes of the sources, on the freshly set-up buffer with a read that
leaves the Working page equal to the Poison page: io_uring_swap ends the process with
status 255, page_count_do_wp_page prints the same message and carries on. -/
theorem halt_policy_witness :
    cycle .io_uring_swap source_config (main_start source_config (fun _ => 7)).loop
        ⟨512, 512, fun _ => 255⟩ = Outcome.exit 255 [Msg.corruption_detected] ∧
    cycle .page_count_do_wp_page source_config (main_start source_config (fun _ => 7)).loop
        ⟨512, 512, fun _ => 255⟩ =
      Outcome.next
        (toggle source_config
          (after_read source_config (main_start source_config (fun _ => 7)).loop.mem
            ⟨512, 512, fun _ => 255⟩) true)
        [Msg.corruption_detected] := by
  have hz : zones_intact source_config (main_start source_config (fun _ => 7)).loop.mem :=
    init_region_zones_intact _ _
  have hzw := after_read_zones_intact source_config (by decide) _ ⟨512, 512, fun _ => 255⟩ hz
  have href := head_differs_reference source_config (by decide) (by decide) _ hzw
    (show after_read source_config (main_start source_config (fun _ => 7)).loop.mem
      ⟨512, 512, fun _ => 255⟩ 0 ≠ 0 by decide)
  have hhead := head_agree_poison source_config (by decide) _ hzw
    (fun i hi => after_read_head source_config _ ⟨512, 512, fun _ => 255⟩ i rfl hi)
  have htail := tail_agree_of_zero source_config (by decide) _ hzw (fun i h1 h2 => by
    rw [after_read_frame _ _ _ _ h1]
    exact (init_region_bytes source_config (fun _ => 7)).1 i
      (by have : source_config.PAGE_SIZE = 4096 := rfl
          omega))
  have hpage := (page_eq_poison_iff source_config (by decide) _ hzw hhead).2 htail
  have h := (halt_policy .io_uring_swap source_config
    (main_start source_config (fun _ => 7)).loop ⟨512, 512, fun _ => 255⟩).2.2.1 rfl
    ⟨href, hpage⟩
  exact ⟨h.1, h.2.1⟩

/-- C15: in a pass that does not end the process, what is printed is the
classification of the buffer as the read left it, made with the flag as it was before
the flip; the flag is then flipped, and the compensating `memset` is applied on top
of the buffer the read left exactly when the flipped flag is `false`.  The `memset`
sets `mem[0:HARDBLKSIZE]` to `0xff` and changes no byte from `HARDBLKSIZE` on.  In a
run from the start of `main` that does not end the process, pass number `k+1` performs
the write exactly when `k` is even, that is in passes 1, 3, 5, ... -/
theorem compensating_write_placement (v : Variant) (c : Config) (prior : Mem)
    (rds : List ReadResult)
    (h : (run v c (main_start c prior).loop rds).status = none) :
    (∀ (s : Loop) (rd : ReadResult), (cycle v c s rd).status = none →
      cycle v c s rd =
        Outcome.next
          ⟨if (!s.skip_memset) = false
              then memset (after_read c s.mem rd) 0 0xff c.HARDBLKSIZE
              else after_read c s.mem rd,
            !s.skip_memset⟩
          (detect v c (after_read c s.mem rd) s.skip_memset).1) ∧
    (∀ (m : Mem) (i : Nat),
      (i < c.HARDBLKSIZE → memset m 0 0xff c.HARDBLKSIZE i = 255) ∧
      (c.HARDBLKSIZE ≤ i → memset m 0 0xff c.HARDBLKSIZE i = m i)) ∧
    (∀ (k : Nat) (hk : k < rds.length),
      ∃ s, (run v c (main_start c prior).loop (rds.take k)).state = some s ∧
        (run v c (main_start c prior).loop (rds.take (k + 1))).state.map Loop.mem =
          some (if k % 2 = 0
            then memset (after_read c s.mem rds[k]) 0 0xff c.HARDBLKSIZE
            else after_read c s.mem rds[k])) := by
  refine ⟨?_, ?_, ?_⟩
  · intro s rd hs
    rw [cycle_eq_of_status v c s rd hs, toggle_eq]
    cases s.skip_memset <;> rfl
  · intro m i
    constructor
    · intro hi
      have : (0 ≤ i ∧ i < 0 + c.HARDBLKSIZE) := by omega
      simp only [memset, if_pos this]
      rfl
    · intro hi
      have : ¬ (0 ≤ i ∧ i < 0 + c.HARDBLKSIZE) := by omega
      simp only [memset, if_neg this]
  · intro k hk
    obtain ⟨s, hs, hflag⟩ := run_prefix_state v c rds _ h k (Nat.le_of_lt hk)
    obtain ⟨s1, hs1, _⟩ := run_prefix_state v c rds _ h (k + 1) hk
    refine ⟨s, hs, ?_⟩
    have htake : rds.take (k + 1) = rds.take k ++ [rds[k]] := by
      rw [← List.take_concat_get rds k hk, List.concat_eq_append]
    have hsn := run_snoc v c rds[k] (rds.take k) _ s hs
    rw [← htake] at hsn
    have hcs : (cycle v c s rds[k]).status = none := by
      apply status_none_of_state _ s1
      rw [← hsn]; exact hs1
    rw [hsn, cycle_eq_of_status v c s rds[k] hcs, toggle_eq]
    have hinit : (main_start c prior).loop.skip_memset = true := rfl
    rw [hinit] at hflag
    by_cases h0 : k % 2 = 0
    · have : s.skip_memset = true := by simpa [h0] using hflag
      simp [Outcome.state, this, h0]
    · have : s.skip_memset = false := by simpa [h0] using hflag
      simp [Outcome.state, this, h0]

/-- C15 on the first pass of page_count_do_wp_page-swap at the sizes of the sources,
with a read that brings back 512 bytes of value 1: the pass prints the dump header for
the un-flipped flag (`true`), and the buffer it leaves is the one the read left with
the sentinel written over its first 512 bytes. -/
theorem compensating_write_placement_witness :
    (run .page_count_do_wp_page_swap source_config
      (main_start source_config (fun _ => 7)).loop [⟨512, 512, fun _ => 1⟩]).status = none ∧
    (run .page_count_do_wp_page_swap source_config
      (main_start source_config (fun _ => 7)).loop
        ([(⟨512, 512, fun _ => 1⟩ : ReadResult)].take 1)).state.map Loop.mem =
      some (memset
        (after_read source_config (main_start source_config (fun _ => 7)).loop.mem
          ⟨512, 512, fun _ => 1⟩) 0 0xff 512) := by
  have hst : (run .page_count_do_wp_page_swap source_config
      (main_start source_config (fun _ => 7)).loop [⟨512, 512, fun _ => 1⟩]).status = none := by
    decide
  refine ⟨hst, ?_⟩
  obtain ⟨s, hs, hm⟩ := (compensating_write_placement .page_count_do_wp_page_swap
    source_config (fun _ => 7) [⟨512, 512, fun _ => 1⟩] hst).2.2 0 (by decide)
  have hs0 : s = (main_start source_config (fun _ => 7)).loop := by
    have : (run .page_count_do_wp_page_swap source_config
        (main_start source_config (fun _ => 7)).loop
        (([(⟨512, 512, fun _ => 1⟩ : ReadResult)]).take 0)).state
        = some (main_start source_config (fun _ => 7)).loop := rfl
    rw [this] at hs
    exact (Option.some.inj hs).symm
  rw [hs0] at hm
  exact hm

theorem parse_step_spec (f : Flags) (a : String) :
    (parse_step f a).matched
      = f.matched + (if a = "--fork" ∨ a = "--linear" then 1 else 0) ∧
    ((parse_step f a).multi_process = true ↔ f.multi_process = true ∨ a = "--fork") ∧
    ((parse_step f a).linear = true ↔ f.linear = true ∨ a = "--linear") := by
  by_cases h1 : a = "--fork"
  · have h2 : ¬ a = "--linear" := by rw [h1]; decide
    simp [parse_step, h1]
  · by_cases h2 : a = "--linear"
    · simp [parse_step, h2]
    · simp [parse_step, h1, h2]

theorem parse_fold_spec (l : List String) : ∀ (f : Flags),
    (l.foldl parse_step f).matched
      = f.matched + l.countP (fun a => decide (a = "--fork" ∨ a = "--linear")) ∧
    ((l.foldl parse_step f).multi_process = true ↔
      f.multi_process = true ∨ "--fork" ∈ l) ∧
    ((l.foldl parse_step f).linear = true ↔ f.linear = true ∨ "--linear" ∈ l) := by
  induction l with
  | nil => intro f; simp
  | cons a l ih =>
    intro f
    obtain ⟨hm, hf, hl⟩ := parse_step_spec f a
    obtain ⟨im, if_, il⟩ := ih (parse_step f a)
    rw [List.foldl_cons]
    refine ⟨?_, ?_, ?_⟩
    · rw [im, hm, List.countP_cons]
      by_cases h : a = "--fork" ∨ a = "--linear"
      · simp only [h, if_true, decide_True]; omega
      · simp only [h, if_false, decide_False]; simp
    · rw [if_, hf, List.mem_cons]
      constructor
      · rintro ((h | h) | h)
        · exact Or.inl h
        · exact Or.inr (Or.inl h.symm)
        · exact Or.inr (Or.inr h)
      · rintro (h | h | h)
        · exact Or.inl (Or.inl h)
        · exact Or.inl (Or.inr h.symm)
        · exact Or.inr h
    · rw [il, hl, List.mem_cons]
      constructor
      · rintro ((h | h) | h)
        · exact Or.inl h
        · exact Or.inr (Or.inl h.symm)
        · exact Or.inr (Or.inr h)
      · rintro (h | h | h)
        · exact Or.inl (Or.inl h)
        · exact Or.inl (Or.inr h.symm)
        · exact Or.inr h

/-- C13: for every argument vector with `argc >= 1`, the argument check of
vmsplice-oom passes exactly when every argument after `argv[0]` is `--fork` or
`--linear`; it then leaves `multi_process` true exactly when some argument is `--fork`
and `linear` true exactly when some argument is `--linear`; in every other case it
prints the usage line and ends the process with status 1. -/
theorem flag_parsing (argv : List String) (h : 1 ≤ argv.length) :
    ((∀ a ∈ argv.drop 1, a = "--fork" ∨ a = "--linear") →
      parse_args argv =
        Parsed.ok (decide ("--fork" ∈ argv.drop 1)) (decide ("--linear" ∈ argv.drop 1))) ∧
    (¬ (∀ a ∈ argv.drop 1, a = "--fork" ∨ a = "--linear") →
      parse_args argv = Parsed.usage 1) := by
  obtain ⟨hm0, hf, hl⟩ := parse_fold_spec (argv.drop 1) ⟨false, false, 1⟩
  have hm : ((argv.drop 1).foldl parse_step ⟨false, false, 1⟩).matched
      = 1 + (argv.drop 1).countP (fun a => decide (a = "--fork" ∨ a = "--linear")) := hm0
  have hlen : (argv.drop 1).length + 1 = argv.length := by
    rw [List.length_drop]; omega
  have hle := List.countP_le_length (fun a => decide (a = "--fork" ∨ a = "--linear"))
    (l := argv.drop 1)
  have hall := List.countP_eq_length (p := fun a => decide (a = "--fork" ∨ a = "--linear"))
    (l := argv.drop 1)
  constructor
  · intro hok
    have hc : (argv.drop 1).countP (fun a => decide (a = "--fork" ∨ a = "--linear"))
        = (argv.drop 1).length := hall.2 (fun a ha => by simpa using hok a ha)
    have hmatch : ¬ ((argv.drop 1).foldl parse_step ⟨false, false, 1⟩).matched
        ≠ argv.length := by
      rw [hm, hc]; omega
    simp only [parse_args, if_neg hmatch]
    congr 1
    · rw [Bool.eq_iff_iff, hf]; simp
    · rw [Bool.eq_iff_iff, hl]; simp
  · intro hbad
    have hc : (argv.drop 1).countP (fun a => decide (a = "--fork" ∨ a = "--linear"))
        ≠ (argv.drop 1).length := by
      intro e
      apply hbad
      intro a ha
      simpa using hall.1 e a ha
    have hmatch : ((argv.drop 1).foldl parse_step ⟨false, false, 1⟩).matched
        ≠ argv.length := by
      rw [hm]; omega
    simp only [parse_args, if_pos hmatch]
    rfl

/-- C13 on `./vmsplice-oom --linear --fork --linear`: the check passes with both
flags set. -/
theorem flag_parsing_witness :
    parse_args ["./vmsplice-oom", "--linear", "--fork", "--linear"] = Parsed.ok true true :=
  (flag_parsing ["./vmsplice-oom", "--linear", "--fork", "--linear"] (by decide)).1
    (by decide)

/-- Masking an `unsigned long` with `~(2^k - 1)` clears its low `k` bits. -/
theorem land_high_mask (k : Nat) (hk : k ≤ 64) (x : Nat) (hx : x < 2 ^ 64) :
    x &&& (2 ^ 64 - 2 ^ k) = x - x % 2 ^ k := by
  have e1 : 2 ^ 64 - 2 ^ k = 2 ^ k * (2 ^ (64 - k) - 1) := by
    have : (2 : Nat) ^ 64 = 2 ^ k * 2 ^ (64 - k) := by
      rw [← Nat.pow_add]; congr 1; omega
    rw [Nat.mul_sub, Nat.mul_one, this]
  have e2 : x - x % 2 ^ k = 2 ^ k * (x / 2 ^ k) := by
    have := Nat.div_add_mod x (2 ^ k)
    omega
  rw [e1, e2]
  apply Nat.eq_of_testBit_eq
  intro i
  rw [Nat.testBit_and, Nat.testBit_mul_pow_two, Nat.testBit_mul_pow_two,
    Nat.testBit_two_pow_sub_one, ← Nat.shiftRight_eq_div_pow, Nat.testBit_shiftRight]
  by_cases hki : k ≤ i
  · have e : k + (i - k) = i := by omega
    rw [e]
    by_cases hi : i < 64
    · have : i - k < 64 - k := by omega
      simp [hki, this]
    · have hf : x.testBit i = false := by
        apply Nat.testBit_lt_two_pow
        exact Nat.lt_of_lt_of_le hx (Nat.pow_le_pow_right (by decide) (by omega))
      simp [hf]
  · simp [hki]

theorem layout_start_nonlinear :
    layout_start false = ⟨2097152, 2 ^ 64 - 2 ^ 21, 2097152 * 256 + 2097151, false, 256⟩ := by
  decide

theorem layout_start_linear :
    layout_start true = ⟨4096, 2 ^ 64 - 2 ^ 12, 4096 * 256 + 4095, true, 256⟩ := by
  decide

theorem layout_fallback_eq (l0 : Layout) :
    layout_fallback l0 = ⟨4096, 2 ^ 64 - 2 ^ 12, 8191, true, 1⟩ := by
  have h : layout_fallback l0 = layout_fallback ⟨0, 0, 0, true, 0⟩ := rfl
  rw [h]
  decide

theorem page_of_mask (k : Nat) (hk : k ≤ 64) (l : Layout)
    (hmask : l.page_mask = 2 ^ 64 - 2 ^ k) (area : Nat)
    (ha : area + (2 ^ k - 1) < 2 ^ 64) :
    page_of l area = (area + (2 ^ k - 1)) - (area + (2 ^ k - 1)) % 2 ^ k := by
  have hpos : 0 < 2 ^ k := Nat.two_pow_pos k
  have hle : 2 ^ k ≤ 2 ^ 64 := Nat.pow_le_pow_right (by decide) hk
  have hnot : not64 l.page_mask = 2 ^ k - 1 := by
    rw [hmask, not64, Nat.mod_eq_of_lt (by omega)]
    omega
  rw [page_of, hnot, Nat.mod_eq_of_lt ha, hmask]
  exact land_high_mask k hk _ ha

/-- C16: the three layouts the loop of vmsplice-oom can be in have the sizes the
sources compute (non-linear: pages of `4096 << 9` bytes, 256 of them, mapping of
`page_size*256 + page_size-1` bytes; linear: 4096, 256, `4096*256 + 4095`; after a
failed `F_SETPIPE_SZ`: 4096, 1, 8191).  In each of them, for every address `area` with
`area + area_size <= 2^64`, the pointer `page` is a multiple of `page_size` with
`area <= page < area + page_size`, and for every `i < pages_to_pin` the 4096 bytes
starting at `_page` lie within `[area, area + area_size)`. -/
theorem pinned_pages_inside_mapping (l : Layout) (area : Nat)
    (hl : (∃ linear, l = layout_start linear) ∨ (∃ l0, l = layout_fallback l0))
    (ha : area + l.area_size ≤ 2 ^ 64) :
    ((layout_start false).page_size = 4096 <<< 9 ∧ (layout_start false).pages_to_pin = 256 ∧
      (layout_start false).area_size = (4096 <<< 9) * 256 + (4096 <<< 9) - 1) ∧
    ((layout_start true).page_size = 4096 ∧ (layout_start true).pages_to_pin = 256 ∧
      (layout_start true).area_size = 4096 * 256 + 4095) ∧
    (∀ l0, (layout_fallback l0).page_size = 4096 ∧ (layout_fallback l0).pages_to_pin = 1 ∧
      (layout_fallback l0).area_size = 8191 ∧ (layout_fallback l0).linear = true) ∧
    page_of l area % l.page_size = 0 ∧
    area ≤ page_of l area ∧ page_of l area < area + l.page_size ∧
    (∀ i, i < l.pages_to_pin →
      area ≤ pinned_start l area i ∧
      pinned_start l area i + _PAGE_SIZE ≤ area + l.area_size) := by
  have hps : _PAGE_SIZE = 4096 := rfl
  refine ⟨by decide, by decide, fun l0 => by rw [layout_fallback_eq l0]; decide, ?_⟩
  rcases hl with ⟨linear, rfl⟩ | ⟨l0, rfl⟩
  · cases linear
    · rw [layout_start_nonlinear] at ha ⊢
      have hp := page_of_mask 21 (by decide)
        ⟨2097152, 2 ^ 64 - 2 ^ 21, 2097152 * 256 + 2097151, false, 256⟩ rfl area
        (by simp only [] at ha; omega)
      simp only [] at ha
      simp only [pinned_start, Bool.not_false, if_true, hp]
      refine ⟨by omega, by omega, by omega, fun i hi => ?_⟩
      have h1 : i * 2097152 % 2 ^ 64 = i * 2097152 := Nat.mod_eq_of_lt (by omega)
      rw [h1, hps, Nat.mod_eq_of_lt (by omega)]
      omega
    · rw [layout_start_linear] at ha ⊢
      have hp := page_of_mask 12 (by decide)
        ⟨4096, 2 ^ 64 - 2 ^ 12, 4096 * 256 + 4095, true, 256⟩ rfl area
        (by simp only [] at ha; omega)
      simp only [] at ha
      simp only [pinned_start, Bool.not_true, Bool.false_eq_true, if_false, hp, hps]
      refine ⟨by omega, by omega, by omega, fun i hi => ?_⟩
      have h1 : i * 4096 % 2 ^ 64 = i * 4096 := Nat.mod_eq_of_lt (by omega)
      rw [h1, Nat.mod_eq_of_lt (by omega)]
      omega
  · rw [layout_fallback_eq] at ha ⊢
    have hp := page_of_mask 12 (by decide)
      ⟨4096, 2 ^ 64 - 2 ^ 12, 8191, true, 1⟩ rfl area
      (by simp only [] at ha; omega)
    simp only [] at ha
    simp only [pinned_start, Bool.not_true, Bool.false_eq_true, if_false, hp, hps]
    refine ⟨by omega, by omega, by omega, fun i hi => ?_⟩
    have hi0 : i = 0 := by omega
    subst hi0
    rw [Nat.zero_mul, Nat.zero_mod, Nat.add_zero, Nat.mod_eq_of_lt (by omega)]
    omega

/-- C16 for the non-linear layout and a mapping at `0x7f0000001000`, aligned to 4096
but not to the 2 MiB page size: `page` is a multiple of the page size, and the 4096
bytes of the last of the 256 pinned pages end inside the mapping. -/
theorem pinned_pages_inside_mapping_witness :
    139637976731648 + (layout_start false).area_size ≤ 2 ^ 64 ∧
    page_of (layout_start false) 139637976731648 % (layout_start false).page_size = 0 ∧
    139637976731648 ≤ pinned_start (layout_start false) 139637976731648 255 ∧
    pinned_start (layout_start false) 139637976731648 255 + _PAGE_SIZE
      ≤ 139637976731648 + (layout_start false).area_size :=
  ⟨by decide,
    (pinned_pages_inside_mapping (layout_start false) 139637976731648
      (Or.inl ⟨false, rfl⟩) (by decide)).2.2.2.1,
    (pinned_pages_inside_mapping (layout_start false) 139637976731648
      (Or.inl ⟨false, rfl⟩) (by decide)).2.2.2.2.2.2 255 (by decide)⟩

end Harness
